import Mathlib

set_option maxRecDepth 8000

/-!
Verification of the benchmark execution and statistics engine of the
llm-connector-hub repository (crate `connector-hub-benchmarks`).

The development shallowly embeds the Rust sources:
* `src/adapters/*.rs` — the five benchmark targets, their bridge clients
  (`run_ts_benchmark`), their simulated workloads (`run_simulated`), the
  SSE chunk parser and the cache-key generator;
* `src/benchmarks/mod.rs` — the runner (`run_all_benchmarks`,
  `run_benchmarks_by_id`);
* `src/benchmarks/result.rs` — `BenchmarkResult`;
* `src/benchmarks/io.rs` — the JSON result store
  (`write_results_json` / `read_results_json`).

Modelling conventions:
* `serde_json::Value` is embedded as `JValue`; JSON numbers are carried as
  exact rationals (serde stores u64/i64/f64; the claims under study never
  depend on the f64 rounding of a parsed decimal literal, which is the one
  place the exact-rational reading differs).  Objects are association
  lists in construction order.
* Wall-clock sampling (`Instant::now`/`elapsed`) is an oracle: every
  simulated run is a function of the list of sampled durations, and every
  bridge call is a function of the subprocess outcome.
* Rust `u64` arithmetic is `Nat` arithmetic reduced mod `2 ^ 64` where the
  source can wrap (release-profile wrapping semantics).
* The Rust expressions `(len as f64 * 0.95) as usize` are embedded
  exactly: the f64 significand of the constant, round-to-nearest-even at
  53 bits of the product, truncation to integer.
-/

/-! ## JSON value model (`serde_json::Value`) -/

/-- Embedding of `serde_json::Value`.  Numbers are exact rationals;
objects are association lists kept in construction order (`serde_json`'s
default map is ordered by key, which none of the verified claims
observe). -/
inductive JValue where
  | null
  | jbool (b : Bool)
  | num (q : ℚ)
  | str (s : String)
  | arr (elems : List JValue)
  | obj (fields : List (String × JValue))

mutual

/-- Decidable equality for `JValue` (nested inductive, so written by
hand). -/
def JValue.decEq : (a b : JValue) → Decidable (a = b)
  | .null, .null => isTrue rfl
  | .jbool a, .jbool b =>
    if h : a = b then isTrue (by rw [h]) else isFalse (by simp [h])
  | .num a, .num b =>
    if h : a = b then isTrue (by rw [h]) else isFalse (by simp [h])
  | .str a, .str b =>
    if h : a = b then isTrue (by rw [h]) else isFalse (by simp [h])
  | .arr a, .arr b =>
    match JValue.decEqList a b with
    | isTrue h => isTrue (by rw [h])
    | isFalse h => isFalse (by simp [h])
  | .obj a, .obj b =>
    match JValue.decEqObj a b with
    | isTrue h => isTrue (by rw [h])
    | isFalse h => isFalse (by simp [h])
  | .null, .jbool _ => isFalse (by simp)
  | .null, .num _ => isFalse (by simp)
  | .null, .str _ => isFalse (by simp)
  | .null, .arr _ => isFalse (by simp)
  | .null, .obj _ => isFalse (by simp)
  | .jbool _, .null => isFalse (by simp)
  | .jbool _, .num _ => isFalse (by simp)
  | .jbool _, .str _ => isFalse (by simp)
  | .jbool _, .arr _ => isFalse (by simp)
  | .jbool _, .obj _ => isFalse (by simp)
  | .num _, .null => isFalse (by simp)
  | .num _, .jbool _ => isFalse (by simp)
  | .num _, .str _ => isFalse (by simp)
  | .num _, .arr _ => isFalse (by simp)
  | .num _, .obj _ => isFalse (by simp)
  | .str _, .null => isFalse (by simp)
  | .str _, .jbool _ => isFalse (by simp)
  | .str _, .num _ => isFalse (by simp)
  | .str _, .arr _ => isFalse (by simp)
  | .str _, .obj _ => isFalse (by simp)
  | .arr _, .null => isFalse (by simp)
  | .arr _, .jbool _ => isFalse (by simp)
  | .arr _, .num _ => isFalse (by simp)
  | .arr _, .str _ => isFalse (by simp)
  | .arr _, .obj _ => isFalse (by simp)
  | .obj _, .null => isFalse (by simp)
  | .obj _, .jbool _ => isFalse (by simp)
  | .obj _, .num _ => isFalse (by simp)
  | .obj _, .str _ => isFalse (by simp)
  | .obj _, .arr _ => isFalse (by simp)

/-- Decidable equality for lists of `JValue`. -/
def JValue.decEqList : (a b : List JValue) → Decidable (a = b)
  | [], [] => isTrue rfl
  | [], _ :: _ => isFalse (by simp)
  | _ :: _, [] => isFalse (by simp)
  | x :: xs, y :: ys =>
    match JValue.decEq x y, JValue.decEqList xs ys with
    | isTrue h1, isTrue h2 => isTrue (by rw [h1, h2])
    | isFalse h1, _ => isFalse (by simp [h1])
    | _, isFalse h2 => isFalse (by simp [h2])

/-- Decidable equality for object field lists. -/
def JValue.decEqObj : (a b : List (String × JValue)) → Decidable (a = b)
  | [], [] => isTrue rfl
  | [], _ :: _ => isFalse (by simp)
  | _ :: _, [] => isFalse (by simp)
  | (k1, v1) :: xs, (k2, v2) :: ys =>
    if h1 : k1 = k2 then
      match JValue.decEq v1 v2, JValue.decEqObj xs ys with
      | isTrue h2, isTrue h3 => isTrue (by rw [h1, h2, h3])
      | isFalse h2, _ => isFalse (by simp [h2])
      | _, isFalse h3 => isFalse (by simp [h3])
    else isFalse (by simp [h1])

end

instance : DecidableEq JValue := JValue.decEq

/-- `Value::get(key)` for string keys: field lookup on objects, `None` on
every other variant. -/
def JValue.get : JValue → String → Option JValue
  | .obj fields, key => (fields.find? (fun p => p.1 == key)).map (·.2)
  | _, _ => none

/-- `Value::get(index)` for usize indexes: element lookup on arrays,
`None` on every other variant. -/
def JValue.getIdx : JValue → ℕ → Option JValue
  | .arr elems, i => elems[i]?
  | _, _ => none

/-- `Value::as_str`. -/
def JValue.asStr : JValue → Option String
  | .str s => some s
  | _ => none

/-- Shorthand for a JSON number holding a Rust unsigned integer. -/
def jnat (n : ℕ) : JValue := .num (n : ℚ)

/-! ## Exact model of the `f64` index computation

The sources compute percentile indexes as `(len as f64 * 0.95) as usize`
(and `* 0.99`).  `len < 2 ^ 53` is exact in `f64`; the product is rounded
to nearest-even at 53 significand bits; the `as usize` cast truncates.
`roundSig` below rounds a natural number to 53 significand bits, so the
whole expression is `roundSig (len * m) / 2 ^ 53` where `m / 2 ^ 53` is
the exact value of the `f64` constant. -/

/-- Fuel-driven floor of log₂ (structural recursion so that the kernel
can evaluate it). -/
def log2p : ℕ → ℕ → ℕ
  | 0, _ => 0
  | fuel + 1, n => if n ≤ 1 then 0 else log2p fuel (n / 2) + 1

/-- Floor of log₂ on naturals, total, kernel-evaluable. -/
def natLog2 (n : ℕ) : ℕ := log2p n n

/-- Round a natural number to 53 significand bits, ties to even: the
value of the `f64` nearest to `P` (for `P` below the 2^64 range used
here), kept as an exact natural. -/
def roundSig (P : ℕ) : ℕ :=
  let t := natLog2 P + 1 - 53
  let g := 2 ^ t
  let q := P / g
  let r := P % g
  if 2 * r > g ∨ (2 * r = g ∧ q % 2 = 1) then (q + 1) * g else q * g

/-- The 53-bit significand of the `f64` nearest 0.95:
`(0.95 : f64) = m95 / 2 ^ 53`, and `20 * m95 = 19 * 2 ^ 53 - 8`. -/
def m95 : ℕ := 8556839292003942

/-- The 53-bit significand of the `f64` nearest 0.99:
`(0.99 : f64) = m99 / 2 ^ 53`, and `100 * m99 = 99 * 2 ^ 53 - 8`. -/
def m99 : ℕ := 8917127262193582

/-- The Rust expression `(len as f64 * c) as usize` where the `f64`
constant `c` has 53-bit significand `m` (so `c = m / 2 ^ 53`). -/
def percIdx (len m : ℕ) : ℕ := roundSig (len * m) / 2 ^ 53

/-! ## f64 value arithmetic for throughput fields

`json!` maps convert `f64` expressions through `Number::from_f64`, which
yields `Null` for a non-finite value.  The throughput expressions divide
`1_000_000_000.0` by a mean cast `as f64`; the quotient is non-finite
exactly when the mean is zero.  The finite values themselves are carried
as the exact rationals produced by round-to-nearest-even; no claim
depends on them. -/

/-- Fuel-driven exponent for rationals below 1 (smallest `k` with
`q * 2 ^ k ≥ 1`, minus one step bookkeeping). -/
def negExp2 : ℕ → ℚ → ℕ
  | 0, _ => 0
  | fuel + 1, q => if 1 ≤ q then 0 else negExp2 fuel (q * 2) + 1

/-- Floor of log₂ of a positive rational. -/
def qlog2 (q : ℚ) : ℤ := if 1 ≤ q then (natLog2 ⌊q⌋₊ : ℤ) else -(negExp2 3000 q : ℤ)

/-- Round a rational to the nearest integer, ties to even. -/
def rhe (q : ℚ) : ℤ :=
  let f := ⌊q⌋
  if q - f > 1 / 2 then f + 1
  else if q - f < 1 / 2 then f
  else if f % 2 = 0 then f else f + 1

/-- Round a positive rational to the nearest `f64` value
(round-to-nearest-even at 53 significand bits; normal range only, which
covers every quotient the benchmarks form). -/
def rndF64 (q : ℚ) : ℚ :=
  if q ≤ 0 then 0
  else (rhe (q * 2 ^ ((52 : ℤ) - qlog2 q)) : ℚ) * 2 ^ (qlog2 q - 52)

/-- `u64 as f64`: round-to-nearest-even at 53 bits. -/
def f64OfNat (n : ℕ) : ℚ := (roundSig n : ℚ)

/-- The Rust expression `1_000_000_000.0 / (mean as f64)` (more
generally an exact `f64` numerator `a` over a `u64` cast): `none` models
a non-finite quotient, which happens exactly for a zero divisor. -/
def f64DivNat (a : ℕ) (b : ℕ) : Option ℚ :=
  if b = 0 then none else some (rndF64 ((a : ℚ) / f64OfNat b))

/-- Multiply an `f64` quotient by an exactly-representable natural
(`* chunks.len() as f64`); non-finite stays non-finite. -/
def f64MulNat (x : Option ℚ) (k : ℕ) : Option ℚ :=
  x.map (fun q => rndF64 (q * (k : ℚ)))

/-- `Value::from` on an `f64`: `Null` when the value is non-finite. -/
def jf64 : Option ℚ → JValue
  | none => .null
  | some q => .num q

/-! ## `Vec::sort` model and u64 helpers -/

/-- Insert into a sorted list (ascending). -/
def insertSorted (x : ℕ) : List ℕ → List ℕ
  | [] => [x]
  | y :: ys => if x ≤ y then x :: y :: ys else y :: insertSorted x ys

/-- Ascending sort of a list of naturals; extensionally the unique sort
function on naturals, hence a faithful model of `Vec::sort`. -/
def sortNat : List ℕ → List ℕ
  | [] => []
  | x :: xs => insertSorted x (sortNat xs)

/-- Wrapping `u64` sum (`iter().sum::<u64>()` under release-profile
wrapping). -/
def u64sum (xs : List ℕ) : ℕ := xs.sum % 2 ^ 64

/-- Wrapping `u64` addition. -/
def u64add (a b : ℕ) : ℕ := (a + b) % 2 ^ 64

/-- Wrapping `u64` subtraction (callers pass values below `2 ^ 64`). -/
def u64sub (a b : ℕ) : ℕ := (a + 2 ^ 64 - b) % 2 ^ 64

/-! ## JSON text: parser (`serde_json::from_str::<Value>`)

The parser follows the serde_json grammar: optional surrounding
whitespace (space, tab, newline, carriage return), `null`/`true`/`false`,
numbers without leading zeros, strings with the JSON escapes including
`\uXXXX` and surrogate pairs, arrays and objects.  Divergences from the
library, none observable by the claims under study: decimal literals are
kept exact instead of rounded to `f64`; the 128-level recursion depth
limit is not modelled; duplicate keys are kept instead of deduplicated
last-wins. -/

/-- The opening brace character, `\x7b`. -/
def lbrace : Char := Char.ofNat 123

/-- The closing brace character, `\x7d`. -/
def rbrace : Char := Char.ofNat 125

/-- The double-quote character. -/
def dquote : Char := Char.ofNat 34

/-- The backslash character. -/
def bslash : Char := Char.ofNat 92

/-- JSON whitespace (the exact serde set). -/
def isJsonWs (c : Char) : Bool := c == ' ' || c == '\t' || c == '\n' || c == '\r'

/-- Drop leading JSON whitespace. -/
def skipWs : List Char → List Char
  | [] => []
  | c :: cs => if isJsonWs c then skipWs cs else c :: cs

/-- Value of a hex digit. -/
def hexVal : Char → Option ℕ
  | c =>
    if '0' ≤ c ∧ c ≤ '9' then some (c.toNat - 48)
    else if 'a' ≤ c ∧ c ≤ 'f' then some (c.toNat - 87)
    else if 'A' ≤ c ∧ c ≤ 'F' then some (c.toNat - 55)
    else none

/-- Parse exactly four hex digits. -/
def parseHex4 : List Char → Option (ℕ × List Char)
  | c1 :: c2 :: c3 :: c4 :: rest =>
    match hexVal c1, hexVal c2, hexVal c3, hexVal c4 with
    | some a, some b, some c, some d => some (a * 4096 + b * 256 + c * 16 + d, rest)
    | _, _, _, _ => none
  | _ => none

/-- Accumulate decimal digits; returns value, digit count and the rest. -/
def parseDigitsAux : List Char → ℕ → ℕ → ℕ × ℕ × List Char
  | [], acc, cnt => (acc, cnt, [])
  | c :: rest, acc, cnt =>
    if c.isDigit then parseDigitsAux rest (acc * 10 + (c.toNat - 48)) (cnt + 1)
    else (acc, cnt, c :: rest)

/-- Parse the integer part of a JSON number (serde rejects leading
zeros). -/
def parseIntPart : List Char → Option (ℕ × List Char)
  | c :: rest =>
    if c = '0' then
      match rest with
      | d :: _ => if d.isDigit then none else some (0, rest)
      | [] => some (0, [])
    else if c.isDigit then
      let r := parseDigitsAux rest (c.toNat - 48) 1
      some (r.1, r.2.2)
    else none
  | [] => none

/-- Parse the optional fraction part; returns value and digit count. -/
def parseFracPart : List Char → Option (ℕ × ℕ × List Char)
  | c :: d :: rest =>
    if c = '.' then
      if d.isDigit then some (parseDigitsAux rest (d.toNat - 48) 1)
      else none
    else some (0, 0, c :: d :: rest)
  | [c] => if c = '.' then none else some (0, 0, [c])
  | [] => some (0, 0, [])

/-- Parse the optional exponent part; returns the signed exponent. -/
def parseExpPart : List Char → Option (ℤ × List Char)
  | c :: rest =>
    if c = 'e' ∨ c = 'E' then
      match rest with
      | s :: d :: r2 =>
        if s = '+' then
          if d.isDigit then
            let p := parseDigitsAux r2 (d.toNat - 48) 1
            some ((p.1 : ℤ), p.2.2)
          else none
        else if s = '-' then
          if d.isDigit then
            let p := parseDigitsAux r2 (d.toNat - 48) 1
            some (-(p.1 : ℤ), p.2.2)
          else none
        else if s.isDigit then
          let p := parseDigitsAux (d :: r2) (s.toNat - 48) 1
          some ((p.1 : ℤ), p.2.2)
        else none
      | [s] =>
        if s.isDigit then some (((s.toNat - 48 : ℕ) : ℤ), []) else none
      | [] => none
    else some (0, c :: rest)
  | [] => some (0, [])

/-- Parse a JSON number into an exact rational. -/
def parseNumber (cs : List Char) : Option (ℚ × List Char) :=
  let signed : Bool × List Char :=
    match cs with
    | c :: rest => if c = '-' then (true, rest) else (false, cs)
    | [] => (false, [])
  match parseIntPart signed.2 with
  | none => none
  | some (ip, r1) =>
    match parseFracPart r1 with
    | none => none
    | some (fv, fl, r2) =>
      match parseExpPart r2 with
      | none => none
      | some (ex, r3) =>
        let mantissa : ℤ :=
          (if signed.1 then -1 else 1) * ((ip : ℤ) * (10 : ℤ) ^ fl + (fv : ℤ))
        let q : ℚ :=
          if ex ≥ 0 then mkRat (mantissa * (10 : ℤ) ^ ex.toNat) (10 ^ fl)
          else mkRat mantissa (10 ^ (fl + (-ex).toNat))
        some (q, r3)

/-- Parse the body of a JSON string (after the opening quote),
accumulating characters in reverse. -/
def parseStrAux : ℕ → List Char → List Char → Option (String × List Char)
  | 0, _, _ => none
  | _ + 1, [], _ => none
  | fuel + 1, c :: rest, acc =>
    if c = dquote then some (String.mk acc.reverse, rest)
    else if c = bslash then
      match rest with
      | e :: r2 =>
        if e = dquote then parseStrAux fuel r2 (dquote :: acc)
        else if e = bslash then parseStrAux fuel r2 (bslash :: acc)
        else if e = '/' then parseStrAux fuel r2 ('/' :: acc)
        else if e = 'b' then parseStrAux fuel r2 (Char.ofNat 8 :: acc)
        else if e = 'f' then parseStrAux fuel r2 (Char.ofNat 12 :: acc)
        else if e = 'n' then parseStrAux fuel r2 ('\n' :: acc)
        else if e = 'r' then parseStrAux fuel r2 ('\r' :: acc)
        else if e = 't' then parseStrAux fuel r2 ('\t' :: acc)
        else if e = 'u' then
          match parseHex4 r2 with
          | none => none
          | some (n, r3) =>
            if 0xD800 ≤ n ∧ n < 0xDC00 then
              match r3 with
              | b1 :: b2 :: r4 =>
                if b1 = bslash ∧ b2 = 'u' then
                  match parseHex4 r4 with
                  | none => none
                  | some (n2, r5) =>
                    if 0xDC00 ≤ n2 ∧ n2 < 0xE000 then
                      parseStrAux fuel r5
                        (Char.ofNat (0x10000 + (n - 0xD800) * 0x400 + (n2 - 0xDC00)) :: acc)
                    else none
                else none
              | _ => none
            else if 0xDC00 ≤ n ∧ n < 0xE000 then none
            else parseStrAux fuel r3 (Char.ofNat n :: acc)
        else none
      | [] => none
    else if c.toNat < 32 then none
    else parseStrAux fuel rest (c :: acc)

/-- Parse a JSON string starting after the opening quote. -/
def parseStr (cs : List Char) : Option (String × List Char) :=
  parseStrAux (cs.length + 1) cs []

mutual

/-- Parse one JSON value (fuel-driven); returns the value and the
unconsumed rest, trailing whitespace not consumed. -/
def parseValue : ℕ → List Char → Option (JValue × List Char)
  | 0, _ => none
  | fuel + 1, cs =>
    match skipWs cs with
    | [] => none
    | c :: rest =>
      if c = 'n' then
        match rest with
        | 'u' :: 'l' :: 'l' :: r => some (.null, r)
        | _ => none
      else if c = 't' then
        match rest with
        | 'r' :: 'u' :: 'e' :: r => some (.jbool true, r)
        | _ => none
      else if c = 'f' then
        match rest with
        | 'a' :: 'l' :: 's' :: 'e' :: r => some (.jbool false, r)
        | _ => none
      else if c = dquote then (parseStr rest).map (fun p => (.str p.1, p.2))
      else if c = '[' then
        match skipWs rest with
        | d :: r2 =>
          if d = ']' then some (.arr [], r2)
          else (parseElems fuel (d :: r2)).map (fun p => (.arr p.1, p.2))
        | [] => none
      else if c = lbrace then
        match skipWs rest with
        | d :: r2 =>
          if d = rbrace then some (.obj [], r2)
          else (parseFields fuel (d :: r2)).map (fun p => (.obj p.1, p.2))
        | [] => none
      else if c = '-' ∨ c.isDigit then
        (parseNumber (c :: rest)).map (fun p => (.num p.1, p.2))
      else none

/-- Parse the elements of a non-empty array, consuming the closing
bracket. -/
def parseElems : ℕ → List Char → Option (List JValue × List Char)
  | 0, _ => none
  | fuel + 1, cs =>
    match parseValue fuel cs with
    | none => none
    | some (v, r) =>
      match skipWs r with
      | c :: r2 =>
        if c = ',' then (parseElems fuel r2).map (fun p => (v :: p.1, p.2))
        else if c = ']' then some ([v], r2)
        else none
      | [] => none

/-- Parse the fields of a non-empty object, consuming the closing
brace. -/
def parseFields : ℕ → List Char → Option (List (String × JValue) × List Char)
  | 0, _ => none
  | fuel + 1, cs =>
    match skipWs cs with
    | c :: r =>
      if c = dquote then
        match parseStr r with
        | none => none
        | some (k, r2) =>
          match skipWs r2 with
          | c2 :: r3 =>
            if c2 = ':' then
              match parseValue fuel r3 with
              | none => none
              | some (v, r4) =>
                match skipWs r4 with
                | c3 :: r5 =>
                  if c3 = ',' then (parseFields fuel r5).map (fun p => ((k, v) :: p.1, p.2))
                  else if c3 = rbrace then some ([(k, v)], r5)
                  else none
                | [] => none
            else none
          | [] => none
      else none
    | [] => none

end

/-- `serde_json::from_str::<Value>`: a complete value with only
whitespace around it. -/
def parseJson (s : String) : Option JValue :=
  match parseValue (s.length + 1) s.data with
  | some (v, rest) => if skipWs rest = [] then some v else none
  | none => none

/-! ## JSON text: pretty printer (`serde_json::to_string_pretty`)

The pretty formatter: two-space indentation, every array element and
object member on its own line, `": "` after keys, the serde escape set
(`\"`, `\\`, `\b`, `\t`, `\n`, `\f`, `\r`, and `\u00XX` for the other
control characters).  Numbers print as exact decimals (an integer when
the denominator is 1); for every value a `BenchmarkResult` can hold this
parses back to the same rational. -/

/-- Decimal digit character. -/
def digitChar (n : ℕ) : Char := Char.ofNat (48 + n)

/-- Lowercase hexadecimal digit character. -/
def hexDigitChar (n : ℕ) : Char := if n < 10 then Char.ofNat (48 + n) else Char.ofNat (87 + n)

/-- Fuel-driven decimal digits of a natural, most significant first. -/
def natDigitsAux : ℕ → ℕ → List Char
  | 0, _ => []
  | fuel + 1, n => if n < 10 then [digitChar n] else natDigitsAux fuel (n / 10) ++ [digitChar (n % 10)]

/-- Decimal digits of a natural number. -/
def natDigits (n : ℕ) : List Char := natDigitsAux (n + 1) n

/-- Least `k ≤ 1100` with `den ∣ 10 ^ k` (0 when none exists; every
denominator a JSON number can denote, in particular every `f64`, has
one). -/
def decExp (den : ℕ) : ℕ := ((List.range 1101).find? (fun k => 10 ^ k % den = 0)).getD 0

/-- Print a rational as an exact decimal numeral. -/
def printNum (q : ℚ) : List Char :=
  let k := decExp q.den
  let scaled := q.num.natAbs * 10 ^ k / q.den
  let frac := natDigits (scaled % 10 ^ k)
  (if q.num < 0 then ['-'] else []) ++ natDigits (scaled / 10 ^ k) ++
    (if k = 0 then [] else '.' :: (List.replicate (k - frac.length) '0' ++ frac))

/-- The serde escape of one character inside a JSON string. -/
def escapeChar (c : Char) : List Char :=
  if c = dquote then [bslash, dquote]
  else if c = bslash then [bslash, bslash]
  else if c = Char.ofNat 8 then [bslash, 'b']
  else if c = '\t' then [bslash, 't']
  else if c = '\n' then [bslash, 'n']
  else if c = Char.ofNat 12 then [bslash, 'f']
  else if c = '\r' then [bslash, 'r']
  else if c.toNat < 32 then [bslash, 'u', '0', '0', hexDigitChar (c.toNat / 16), hexDigitChar (c.toNat % 16)]
  else [c]

/-- Escape a whole string body. -/
def escapeString (s : String) : List Char := (s.data.map escapeChar).flatten

/-- Two spaces of indentation per level. -/
def indentChars (n : ℕ) : List Char := List.replicate (2 * n) ' '

mutual

/-- Pretty-print a JSON value at an indentation level. -/
def printValue : ℕ → JValue → List Char
  | _, .null => ['n', 'u', 'l', 'l']
  | _, .jbool true => ['t', 'r', 'u', 'e']
  | _, .jbool false => ['f', 'a', 'l', 's', 'e']
  | _, .num q => printNum q
  | _, .str s => dquote :: (escapeString s ++ [dquote])
  | _, .arr [] => ['[', ']']
  | ind, .arr (e :: es) => '[' :: (printItems ind (e :: es) ++ '\n' :: (indentChars ind ++ [']']))
  | _, .obj [] => [lbrace, rbrace]
  | ind, .obj (f :: fs) => lbrace :: (printFields ind (f :: fs) ++ '\n' :: (indentChars ind ++ [rbrace]))

/-- Pretty-print array elements, one per line. -/
def printItems : ℕ → List JValue → List Char
  | _, [] => []
  | ind, [e] => '\n' :: (indentChars (ind + 1) ++ printValue (ind + 1) e)
  | ind, e :: e2 :: es =>
    '\n' :: (indentChars (ind + 1) ++ printValue (ind + 1) e ++ ',' :: printItems ind (e2 :: es))

/-- Pretty-print object members, one per line. -/
def printFields : ℕ → List (String × JValue) → List Char
  | _, [] => []
  | ind, [(k, v)] =>
    '\n' :: (indentChars (ind + 1) ++ (dquote :: (escapeString k ++ [dquote])) ++
      ':' :: ' ' :: printValue (ind + 1) v)
  | ind, (k, v) :: f2 :: fs =>
    '\n' :: (indentChars (ind + 1) ++ (dquote :: (escapeString k ++ [dquote])) ++
      ':' :: ' ' :: printValue (ind + 1) v ++ ',' :: printFields ind (f2 :: fs))

end

/-! ## Benchmark results and the result store
(`benchmarks/result.rs`, `benchmarks/io.rs`)

`BenchmarkResult.timestamp` is a `chrono::DateTime<Utc>`; it is carried
here as its RFC3339 serialization, the form in which it exists in every
result file, so "equal at the serialization format's precision" is plain
string equality. -/

/-- Embedding of `BenchmarkResult` (`result.rs`). -/
structure BenchmarkResult where
  target_id : String
  metrics : JValue
  timestamp : String
deriving DecidableEq

/-- Success test (`result.rs::is_success`): no `status == "failed"`
entry. -/
def BenchmarkResult.is_success (r : BenchmarkResult) : Bool :=
  !(r.metrics.get "status").elim false (fun s => s = JValue.str "failed")

/-- Serde serialization of one result: fields in declaration order. -/
def encodeResult (r : BenchmarkResult) : JValue :=
  .obj [("target_id", .str r.target_id), ("metrics", r.metrics), ("timestamp", .str r.timestamp)]

/-- The JSON text `io.rs::write_results_json` produces
(`serde_json::to_string_pretty` of the result slice). -/
def write_results_json (rs : List BenchmarkResult) : String :=
  String.mk (printValue 0 (.arr (rs.map encodeResult)))

/-- Serde deserialization of one result object: looks fields up by key
(order-independent, unknown fields ignored), requires `target_id` and
`timestamp` to be strings, takes `metrics` verbatim. -/
def decodeResult (v : JValue) : Except String BenchmarkResult :=
  match v.get "target_id", v.get "metrics", v.get "timestamp" with
  | some (.str tid), some m, some (.str ts) => .ok ⟨tid, m, ts⟩
  | _, _, _ => .error "Failed to deserialize benchmark results"

/-- Decidable equality for `Except` results. -/
instance instDecEqExcept {ε α : Type} [DecidableEq ε] [DecidableEq α] :
    DecidableEq (Except ε α)
  | .ok a, .ok b =>
    if h : a = b then isTrue (by rw [h]) else isFalse (by simp [h])
  | .error a, .error b =>
    if h : a = b then isTrue (by rw [h]) else isFalse (by simp [h])
  | .ok _, .error _ => isFalse (by simp)
  | .error _, .ok _ => isFalse (by simp)

/-- `io.rs::read_results_json` applied to text already read from disk:
parse, then decode a `Vec<BenchmarkResult>`. -/
def read_results_json (s : String) : Except String (List BenchmarkResult) :=
  match parseJson s with
  | some (.arr es) => es.mapM decodeResult
  | some _ => .error "Failed to deserialize benchmark results"
  | none => .error "Failed to deserialize benchmark results"

/-! ## Bridge client model (`run_ts_benchmark` in the adapters)

A bridge invocation is a function of the subprocess outcome: either the
spawn itself failed (`Command::output()` returned `Err`, wrapped by
`context(...)` and propagated with `?` — also the path taken when the
best-effort `npm install` spawn fails in `provider_resolution.rs`), or
the process ran to completion with an exit status and captured standard
output.  Durations measured around the call are part of the oracle. -/

/-- Outcome of the external `npm` subprocess. -/
inductive BridgeOutcome where
  | spawnFailed (msg : String)
  | completed (exitSuccess : Bool) (stdoutS : String) (elapsedNs : ℕ)

/-- Result of an adapter method: `Ok`, `Err`, or a Rust panic (reachable
in `run_ts_benchmark` through an invalid byte-range slice). -/
inductive RunResult where
  | ok (metrics : JValue)
  | err (msg : String)
  | panicked
deriving DecidableEq

/-- Outcome of the first-`{` / last-`}` scan over captured stdout. -/
inductive ScanState where
  | noBraces
  | invalidRange
  | slice (cs : List Char)
deriving DecidableEq

/-- Index of the last `}` in a character list. -/
def lastRbraceIdx (cs : List Char) : Option ℕ :=
  (cs.reverse.findIdx? (· = rbrace)).map (fun j => cs.length - 1 - j)

/-- The stdout scan of the bridge clients: find the first `{` and the
last `}`; slice inclusively (`&stdout[start..=end]`, which panics when
the end is more than one position before the start and is empty when it
is exactly one before). -/
def scanJson (cs : List Char) : ScanState :=
  match cs.findIdx? (· = lbrace), lastRbraceIdx cs with
  | some i, some j => if i ≤ j + 1 then .slice ((cs.drop i).take (j + 1 - i)) else .invalidRange
  | _, _ => .noBraces

/-- Milliseconds of a nanosecond duration (`Duration::as_millis`). -/
def nsToMs (ns : ℕ) : ℕ := ns / 1000000

/-! ## Adapter: provider resolution (`provider_resolution.rs`) -/

namespace ProviderResolution

/-- The synthetic metrics returned when the subprocess exits non-zero. -/
def unavailableMetrics (elapsedNs : ℕ) : JValue :=
  .obj [("status", .str "ts_benchmark_unavailable"),
        ("rust_bridge_overhead_ns", jnat elapsedNs),
        ("note", .str "TypeScript benchmark not available, showing bridge overhead only")]

/-- The minimal metrics returned when stdout held no parseable object. -/
def bridgeFallbackMetrics (elapsedNs : ℕ) : JValue :=
  .obj [("bridge_execution_ns", jnat elapsedNs),
        ("bridge_execution_ms", jnat (nsToMs elapsedNs)),
        ("status", .str "completed"),
        ("source", .str "rust_bridge")]

/-- `ProviderResolutionBenchmark::run_ts_benchmark` as a function of the
subprocess outcome. -/
def run_ts_benchmark (o : BridgeOutcome) : RunResult :=
  match o with
  | .spawnFailed _ => .err "Failed to execute TypeScript benchmark"
  | .completed false _ ns => .ok (unavailableMetrics ns)
  | .completed true out ns =>
    match scanJson out.data with
    | .slice cs =>
      match parseJson (String.mk cs) with
      | some v => .ok v
      | none => .ok (bridgeFallbackMetrics ns)
    | .noBraces => .ok (bridgeFallbackMetrics ns)
    | .invalidRange => .panicked

/-- `ProviderResolutionBenchmark::run_simulated` as a function of the
sampled loop durations (`times`); `iterations`/`warmup` are the fixed
configuration echoed into the metrics. -/
def run_simulated (iterations warmup : ℕ) (times : List ℕ) : JValue :=
  let sorted := sortNat times
  let len := sorted.length
  let mean := u64sum sorted / len
  let p50 := sorted.getD (len / 2) 0
  let p95 := sorted.getD (percIdx len m95) 0
  let p99 := sorted.getD (percIdx len m99) 0
  .obj [("iterations", jnat iterations),
        ("warmup_iterations", jnat warmup),
        ("mean_ns", jnat mean),
        ("median_ns", jnat p50),
        ("p50_ns", jnat p50),
        ("p95_ns", jnat p95),
        ("p99_ns", jnat p99),
        ("min_ns", jnat (sorted.getD 0 0)),
        ("max_ns", jnat (sorted.getD (len - 1) 0)),
        ("throughput", jf64 (f64DivNat (10 ^ 9) mean)),
        ("status", .str "simulated")]

/-- `ProviderResolutionBenchmark::run`: one bridge attempt, then (only
on `Err`) the simulated fallback. -/
def run (o : BridgeOutcome) (iterations warmup : ℕ) (times : List ℕ) : RunResult :=
  match run_ts_benchmark o with
  | .ok m => .ok m
  | .err _ => .ok (run_simulated iterations warmup times)
  | .panicked => .panicked

end ProviderResolution

/-! ## Adapter: request transformation (`request_transformation.rs`) -/

namespace RequestTransformation

/-- Non-zero-exit synthetic metrics. -/
def unavailableMetrics (elapsedNs : ℕ) : JValue :=
  .obj [("status", .str "ts_benchmark_unavailable"),
        ("rust_bridge_overhead_ns", jnat elapsedNs),
        ("note", .str "TypeScript benchmark not available, showing bridge overhead only")]

/-- Unparseable-stdout fallback metrics. -/
def bridgeFallbackMetrics (elapsedNs : ℕ) : JValue :=
  .obj [("bridge_execution_ns", jnat elapsedNs),
        ("bridge_execution_ms", jnat (nsToMs elapsedNs)),
        ("status", .str "completed"),
        ("source", .str "rust_bridge")]

/-- `RequestTransformationBenchmark::run_ts_benchmark`. -/
def run_ts_benchmark (o : BridgeOutcome) : RunResult :=
  match o with
  | .spawnFailed _ => .err "Failed to execute TypeScript benchmark"
  | .completed false _ ns => .ok (unavailableMetrics ns)
  | .completed true out ns =>
    match scanJson out.data with
    | .slice cs =>
      match parseJson (String.mk cs) with
      | some v => .ok v
      | none => .ok (bridgeFallbackMetrics ns)
    | .noBraces => .ok (bridgeFallbackMetrics ns)
    | .invalidRange => .panicked

/-- `RequestTransformationBenchmark::run_simulated` as a function of the
two sampled phase vectors. -/
def run_simulated (iterations : ℕ) (requestT responseT : List ℕ) : JValue :=
  let request_times := sortNat requestT
  let response_times := sortNat responseT
  let req_mean := u64sum request_times / request_times.length
  let resp_mean := u64sum response_times / response_times.length
  let len := request_times.length
  let req_p99 := request_times.getD (percIdx len m99) 0
  let resp_p99 := response_times.getD (percIdx len m99) 0
  .obj [("iterations", jnat iterations),
        ("request_transform", .obj
          [("mean_ns", jnat req_mean),
           ("p99_ns", jnat req_p99),
           ("min_ns", jnat (request_times.getD 0 0)),
           ("max_ns", jnat (request_times.getD (len - 1) 0)),
           ("throughput", jf64 (f64DivNat (10 ^ 9) req_mean))]),
        ("response_transform", .obj
          [("mean_ns", jnat resp_mean),
           ("p99_ns", jnat resp_p99),
           ("min_ns", jnat (response_times.getD 0 0)),
           ("max_ns", jnat (response_times.getD (len - 1) 0)),
           ("throughput", jf64 (f64DivNat (10 ^ 9) resp_mean))]),
        ("mean_ns", jnat (u64add req_mean resp_mean / 2)),
        ("p99_ns", jnat (u64add req_p99 resp_p99 / 2)),
        ("throughput", jf64 (f64DivNat (10 ^ 9) (u64add req_mean resp_mean / 2))),
        ("status", .str "simulated")]

/-- `RequestTransformationBenchmark::run`. -/
def run (o : BridgeOutcome) (iterations : ℕ) (requestT responseT : List ℕ) : RunResult :=
  match run_ts_benchmark o with
  | .ok m => .ok m
  | .err _ => .ok (run_simulated iterations requestT responseT)
  | .panicked => .panicked

end RequestTransformation

/-! ## Adapter: middleware pipeline (`middleware_pipeline.rs`) -/

namespace MiddlewarePipeline

/-- Non-zero-exit synthetic metrics. -/
def unavailableMetrics (elapsedNs : ℕ) : JValue :=
  .obj [("status", .str "ts_benchmark_unavailable"),
        ("rust_bridge_overhead_ns", jnat elapsedNs),
        ("note", .str "TypeScript benchmark not available")]

/-- Unparseable-stdout fallback metrics (no millisecond field here). -/
def bridgeFallbackMetrics (elapsedNs : ℕ) : JValue :=
  .obj [("bridge_execution_ns", jnat elapsedNs),
        ("status", .str "completed"),
        ("source", .str "rust_bridge")]

/-- `MiddlewarePipelineBenchmark::run_ts_benchmark`. -/
def run_ts_benchmark (o : BridgeOutcome) : RunResult :=
  match o with
  | .spawnFailed _ => .err "Failed to execute TypeScript benchmark"
  | .completed false _ ns => .ok (unavailableMetrics ns)
  | .completed true out ns =>
    match scanJson out.data with
    | .slice cs =>
      match parseJson (String.mk cs) with
      | some v => .ok v
      | none => .ok (bridgeFallbackMetrics ns)
    | .noBraces => .ok (bridgeFallbackMetrics ns)
    | .invalidRange => .panicked

/-- `MiddlewarePipelineBenchmark::run_simulated`; both percentile
indexes use `single_times.len()`, as the source does. -/
def run_simulated (iterations : ℕ) (singleT pipelineT : List ℕ) : JValue :=
  let single_times := sortNat singleT
  let pipeline_times := sortNat pipelineT
  let single_mean := u64sum single_times / single_times.length
  let pipeline_mean := u64sum pipeline_times / pipeline_times.length
  let len := single_times.length
  .obj [("iterations", jnat iterations),
        ("single_middleware", .obj
          [("mean_ns", jnat single_mean),
           ("p99_ns", jnat (single_times.getD (percIdx len m99) 0)),
           ("min_ns", jnat (single_times.getD 0 0)),
           ("max_ns", jnat (single_times.getD (len - 1) 0))]),
        ("pipeline_5_middlewares", .obj
          [("mean_ns", jnat pipeline_mean),
           ("p99_ns", jnat (pipeline_times.getD (percIdx len m99) 0)),
           ("min_ns", jnat (pipeline_times.getD 0 0)),
           ("max_ns", jnat (pipeline_times.getD (len - 1) 0)),
           ("overhead_per_middleware_ns", jnat (u64sub pipeline_mean single_mean / 4))]),
        ("mean_ns", jnat pipeline_mean),
        ("p99_ns", jnat (pipeline_times.getD (percIdx len m99) 0)),
        ("throughput", jf64 (f64DivNat (10 ^ 9) pipeline_mean)),
        ("status", .str "simulated")]

/-- `MiddlewarePipelineBenchmark::run`. -/
def run (o : BridgeOutcome) (iterations : ℕ) (singleT pipelineT : List ℕ) : RunResult :=
  match run_ts_benchmark o with
  | .ok m => .ok m
  | .err _ => .ok (run_simulated iterations singleT pipelineT)
  | .panicked => .panicked

end MiddlewarePipeline

/-! ## Adapter: cache operations (`cache_operations.rs`) -/

namespace CacheOperations

/-- Non-zero-exit synthetic metrics. -/
def unavailableMetrics (elapsedNs : ℕ) : JValue :=
  .obj [("status", .str "ts_benchmark_unavailable"),
        ("rust_bridge_overhead_ns", jnat elapsedNs),
        ("note", .str "TypeScript benchmark not available")]

/-- Unparseable-stdout fallback metrics. -/
def bridgeFallbackMetrics (elapsedNs : ℕ) : JValue :=
  .obj [("bridge_execution_ns", jnat elapsedNs),
        ("status", .str "completed"),
        ("source", .str "rust_bridge")]

/-- `CacheOperationsBenchmark::run_ts_benchmark`. -/
def run_ts_benchmark (o : BridgeOutcome) : RunResult :=
  match o with
  | .spawnFailed _ => .err "Failed to execute TypeScript benchmark"
  | .completed false _ ns => .ok (unavailableMetrics ns)
  | .completed true out ns =>
    match scanJson out.data with
    | .slice cs =>
      match parseJson (String.mk cs) with
      | some v => .ok v
      | none => .ok (bridgeFallbackMetrics ns)
    | .noBraces => .ok (bridgeFallbackMetrics ns)
    | .invalidRange => .panicked

/-- `CacheOperationsBenchmark::generate_cache_key`: u32 multiply by the
odd constant `0x5bd1e995`, xor with a 15-bit right shift, formatted as
eight zero-padded lowercase hex digits after a fixed prefix. -/
def generate_cache_key (seed : ℕ) : String :=
  let h1 := seed * 0x5bd1e995 % 2 ^ 32
  let h2 := h1 ^^^ (h1 >>> 15)
  String.mk ("cache:provider:model:".data ++
    [hexDigitChar (h2 / 16 ^ 7 % 16), hexDigitChar (h2 / 16 ^ 6 % 16),
     hexDigitChar (h2 / 16 ^ 5 % 16), hexDigitChar (h2 / 16 ^ 4 % 16),
     hexDigitChar (h2 / 16 ^ 3 % 16), hexDigitChar (h2 / 16 ^ 2 % 16),
     hexDigitChar (h2 / 16 % 16), hexDigitChar (h2 % 16)])

/-- `CacheOperationsBenchmark::run_simulated` as a function of the four
sampled phase vectors.  All four means and all four percentile indexes
divide and index by `keygen_times.len()`, as the source does.  The
in-memory cache map only influences the sampled durations, which are the
oracle here. -/
def run_simulated (iterations : ℕ) (keygenT setT getHitT getMissT : List ℕ) : JValue :=
  let keygen_times := sortNat keygenT
  let set_times := sortNat setT
  let get_hit_times := sortNat getHitT
  let get_miss_times := sortNat getMissT
  let len := keygen_times.length
  let keygen_mean := u64sum keygen_times / len
  let set_mean := u64sum set_times / len
  let get_hit_mean := u64sum get_hit_times / len
  let get_miss_mean := u64sum get_miss_times / len
  .obj [("iterations", jnat iterations),
        ("key_generation", .obj
          [("mean_ns", jnat keygen_mean),
           ("p99_ns", jnat (keygen_times.getD (percIdx len m99) 0)),
           ("min_ns", jnat (keygen_times.getD 0 0)),
           ("max_ns", jnat (keygen_times.getD (len - 1) 0))]),
        ("set_operation", .obj
          [("mean_ns", jnat set_mean),
           ("p99_ns", jnat (set_times.getD (percIdx len m99) 0)),
           ("throughput", jf64 (f64DivNat (10 ^ 9) set_mean))]),
        ("get_hit", .obj
          [("mean_ns", jnat get_hit_mean),
           ("p99_ns", jnat (get_hit_times.getD (percIdx len m99) 0)),
           ("throughput", jf64 (f64DivNat (10 ^ 9) get_hit_mean))]),
        ("get_miss", .obj
          [("mean_ns", jnat get_miss_mean),
           ("p99_ns", jnat (get_miss_times.getD (percIdx len m99) 0)),
           ("throughput", jf64 (f64DivNat (10 ^ 9) get_miss_mean))]),
        ("mean_ns", jnat (u64add (u64add keygen_mean set_mean) get_hit_mean / 3)),
        ("throughput", jf64 (f64DivNat (10 ^ 9) get_hit_mean)),
        ("status", .str "simulated")]

/-- `CacheOperationsBenchmark::run`. -/
def run (o : BridgeOutcome) (iterations : ℕ) (keygenT setT getHitT getMissT : List ℕ) :
    RunResult :=
  match run_ts_benchmark o with
  | .ok m => .ok m
  | .err _ => .ok (run_simulated iterations keygenT setT getHitT getMissT)
  | .panicked => .panicked

end CacheOperations

/-! ## Adapter: stream parsing (`stream_parsing.rs`) -/

namespace StreamParsing

/-- Non-zero-exit synthetic metrics. -/
def unavailableMetrics (elapsedNs : ℕ) : JValue :=
  .obj [("status", .str "ts_benchmark_unavailable"),
        ("rust_bridge_overhead_ns", jnat elapsedNs),
        ("note", .str "TypeScript benchmark not available")]

/-- The metrics this adapter always returns on a zero exit. -/
def bridgeMetrics (elapsedNs : ℕ) : JValue :=
  .obj [("bridge_execution_ns", jnat elapsedNs),
        ("status", .str "completed"),
        ("source", .str "rust_bridge")]

/-- `StreamParsingBenchmark::run_ts_benchmark`: unlike the other four
adapters, a zero exit returns the synthetic bridge metrics directly —
captured stdout is never scanned or parsed. -/
def run_ts_benchmark (o : BridgeOutcome) : RunResult :=
  match o with
  | .spawnFailed _ => .err "Failed to execute TypeScript benchmark"
  | .completed false _ ns => .ok (unavailableMetrics ns)
  | .completed true _ ns => .ok (bridgeMetrics ns)

/-- `StreamParsingBenchmark::parse_sse_chunk`: the `data: [DONE]`
sentinel yields no content; otherwise strip `"data: "`, trim, parse as
JSON and extract `choices[0].delta.content` as a string. -/
def parse_sse_chunk (chunk : String) : Option String :=
  if ("data: [DONE]".data).isPrefixOf chunk.data then none
  else
    match ("data: ".data).isPrefixOf chunk.data with
    | true =>
      let json_str := (chunk.data.drop 6).dropWhile Char.isWhitespace
      let json_str := (json_str.reverse.dropWhile Char.isWhitespace).reverse
      match parseJson (String.mk json_str) with
      | some v =>
        match (((v.get "choices").bind (fun c => c.getIdx 0)).bind
            (fun c => c.get "delta")).bind (fun d => d.get "content") with
        | some c => c.asStr
        | none => none
      | none => none
    | false => none

/-- `StreamParsingBenchmark::aggregate_chunks`: concatenate the content
of every chunk that yields one. -/
def aggregate_chunks (chunks : List String) : String :=
  chunks.foldl (fun acc c => acc ++ ((parse_sse_chunk c).getD "")) ""

/-- `StreamParsingBenchmark::run_simulated` as a function of the two
sampled phase vectors. -/
def run_simulated (iterations : ℕ) (parseT aggT : List ℕ) : JValue :=
  let parse_times := sortNat parseT
  let aggregate_times := sortNat aggT
  let len := parse_times.length
  let parse_mean := u64sum parse_times / len
  let aggregate_mean := u64sum aggregate_times / len
  .obj [("iterations", jnat iterations),
        ("chunks_per_stream", jnat 4),
        ("chunk_parsing", .obj
          [("mean_ns", jnat parse_mean),
           ("p99_ns", jnat (parse_times.getD (percIdx len m99) 0)),
           ("min_ns", jnat (parse_times.getD 0 0)),
           ("max_ns", jnat (parse_times.getD (len - 1) 0)),
           ("per_chunk_ns", jnat (parse_mean / 4))]),
        ("stream_aggregation", .obj
          [("mean_ns", jnat aggregate_mean),
           ("p99_ns", jnat (aggregate_times.getD (percIdx len m99) 0)),
           ("min_ns", jnat (aggregate_times.getD 0 0)),
           ("max_ns", jnat (aggregate_times.getD (len - 1) 0))]),
        ("mean_ns", jnat parse_mean),
        ("p99_ns", jnat (parse_times.getD (percIdx len m99) 0)),
        ("throughput", jf64 (f64MulNat (f64DivNat (10 ^ 9) parse_mean) 4)),
        ("status", .str "simulated")]

/-- `StreamParsingBenchmark::run`. -/
def run (o : BridgeOutcome) (iterations : ℕ) (parseT aggT : List ℕ) : RunResult :=
  match run_ts_benchmark o with
  | .ok m => .ok m
  | .err _ => .ok (run_simulated iterations parseT aggT)
  | .panicked => .panicked

end StreamParsing

/-! ## Runner (`benchmarks/mod.rs`) and registry (`adapters/mod.rs`) -/

/-- A benchmark target as the runner sees it: its identifier and the
outcome of awaiting its `run` (the oracle for `target.run().await`). -/
structure Target where
  id : String
  outcome : Except String JValue

/-- The failure metrics the runner synthesizes
(`{"error": message, "status": "failed"}`). -/
def errorMetrics (e : String) : JValue :=
  .obj [("error", .str e), ("status", .str "failed")]

/-- Wrap one target outcome into a `BenchmarkResult` with the timestamp
taken at wrap time (`BenchmarkResult::new`). -/
def resultFor (t : Target) (ts : String) : BenchmarkResult :=
  match t.outcome with
  | .ok m => ⟨t.id, m, ts⟩
  | .error e => ⟨t.id, errorMetrics e, ts⟩

/-- The loop body of `run_all_benchmarks`; `k` counts results produced
so far, indexing the wall-clock oracle. -/
def runAllAux (clock : ℕ → String) : List Target → ℕ → List BenchmarkResult
  | [], _ => []
  | t :: ts, k => resultFor t (clock k) :: runAllAux clock ts (k + 1)

/-- `run_all_benchmarks`: execute every target in order, wrapping each
outcome, never aborting the batch. -/
def run_all_benchmarks (targets : List Target) (clock : ℕ → String) : List BenchmarkResult :=
  runAllAux clock targets 0

/-- The loop body of `run_benchmarks_by_id`. -/
def runByIdAux (ids : List String) (clock : ℕ → String) :
    List Target → ℕ → List BenchmarkResult
  | [], _ => []
  | t :: ts, k =>
    if ids.contains t.id then resultFor t (clock k) :: runByIdAux ids clock ts (k + 1)
    else runByIdAux ids clock ts k

/-- `run_benchmarks_by_id`: walk the registry in registration order and
execute exactly the targets whose id occurs in the request list. -/
def run_benchmarks_by_id (ids : List String) (targets : List Target) (clock : ℕ → String) :
    List BenchmarkResult :=
  runByIdAux ids clock targets 0

/-- The registry order of `adapters/mod.rs::all_targets`. -/
def allTargetIds : List String :=
  ["provider-resolution", "request-transformation", "middleware-pipeline",
   "cache-operations", "stream-parsing"]

/-! ## Auxiliary definitions used by the proofs -/

mutual

/-- Fuel needed by `parseValue` to consume a printed value. -/
def cost : JValue → ℕ
  | .null => 1
  | .jbool _ => 1
  | .num _ => 1
  | .str _ => 1
  | .arr [] => 1
  | .arr (e :: es) => 1 + costItems (e :: es)
  | .obj [] => 1
  | .obj (f :: fs) => 1 + costFields (f :: fs)

/-- Fuel needed by `parseElems` for the remaining elements. -/
def costItems : List JValue → ℕ
  | [] => 1
  | e :: es => 1 + cost e + costItems es

/-- Fuel needed by `parseFields` for the remaining members. -/
def costFields : List (String × JValue) → ℕ
  | [] => 1
  | (_, v) :: fs => 1 + cost v + costFields fs

end

/-- A character list that may safely follow a printed JSON number
without being absorbed into it. -/
def safeAfter (rest : List Char) : Prop :=
  rest = [] ∨ ∃ c cs, rest = c :: cs ∧ (c = ',' ∨ c = '\n')

/-- Value of a digit list under left-to-right accumulation. -/
def valOfDigits (ds : List Char) : ℕ := ds.foldl (fun a c => a * 10 + (c.toNat - 48)) 0

mutual

/-- Every number inside a value is exactly representable as a finite
decimal of at most 1100 places — true of every number `serde_json` can
hold (u64, i64, and every finite `f64`). -/
def decimalOK : JValue → Bool
  | .null => true
  | .jbool _ => true
  | .num q => decide (q.den ∣ 10 ^ 1100)
  | .str _ => true
  | .arr es => decimalOKList es
  | .obj fs => decimalOKFields fs

/-- `decimalOK` over array elements. -/
def decimalOKList : List JValue → Bool
  | [] => true
  | e :: es => decimalOK e && decimalOKList es

/-- `decimalOK` over object members. -/
def decimalOKFields : List (String × JValue) → Bool
  | [] => true
  | (_, v) :: fs => decimalOK v && decimalOKFields fs

end


/-- The tail of `parseNumber` after the sign has been split off. -/
def pnBody (neg : Bool) (cs : List Char) : Option (ℚ × List Char) :=
  match parseIntPart cs with
  | none => none
  | some (ip, r1) =>
    match parseFracPart r1 with
    | none => none
    | some (fv, fl, r2) =>
      match parseExpPart r2 with
      | none => none
      | some (ex, r3) =>
        let mantissa : ℤ := (if neg then -1 else 1) * ((ip : ℤ) * (10 : ℤ) ^ fl + (fv : ℤ))
        let q : ℚ :=
          if ex ≥ 0 then mkRat (mantissa * (10 : ℤ) ^ ex.toNat) (10 ^ fl)
          else mkRat mantissa (10 ^ (fl + (-ex).toNat))
        some (q, r3)

/-! ## Helper lemmas: the `Vec::sort` model sorts -/

theorem insertSorted_length (x : ℕ) (l : List ℕ) :
    (insertSorted x l).length = l.length + 1 := by
  induction l with
  | nil => rfl
  | cons y ys ih =>
    rw [insertSorted]
    by_cases h : x ≤ y
    · simp [h]
    · simp [h, ih]

theorem sortNat_length (l : List ℕ) : (sortNat l).length = l.length := by
  induction l with
  | nil => rfl
  | cons x xs ih => simp [sortNat, insertSorted_length, ih]

theorem insertSorted_perm (x : ℕ) (l : List ℕ) :
    List.Perm (insertSorted x l) (x :: l) := by
  induction l with
  | nil => exact List.Perm.refl _
  | cons y ys ih =>
    rw [insertSorted]
    by_cases h : x ≤ y
    · simp [h]
    · simp only [if_neg h]
      exact (ih.cons y).trans (List.Perm.swap x y ys)

theorem sortNat_perm (l : List ℕ) : List.Perm (sortNat l) l := by
  induction l with
  | nil => exact List.Perm.refl _
  | cons x xs ih => exact (insertSorted_perm x (sortNat xs)).trans (ih.cons x)

theorem sortNat_sum (l : List ℕ) : (sortNat l).sum = l.sum :=
  (sortNat_perm l).sum_eq

theorem insertSorted_sorted (x : ℕ) (l : List ℕ) (h : l.Sorted (· ≤ ·)) :
    (insertSorted x l).Sorted (· ≤ ·) := by
  induction l with
  | nil => simp [insertSorted]
  | cons y ys ih =>
    rw [insertSorted]
    rw [List.sorted_cons] at h
    by_cases hxy : x ≤ y
    · rw [if_pos hxy, List.sorted_cons]
      refine ⟨?_, by rw [List.sorted_cons]; exact h⟩
      intro b hb
      rcases List.mem_cons.mp hb with rfl | hb2
      · exact hxy
      · exact le_trans hxy (h.1 b hb2)
    · rw [if_neg hxy, List.sorted_cons]
      refine ⟨?_, ih h.2⟩
      intro b hb
      have hmem : b = x ∨ b ∈ ys := by
        have := (insertSorted_perm x ys).mem_iff.mp hb
        simpa using this
      rcases hmem with rfl | hb2
      · omega
      · exact h.1 b hb2

theorem sortNat_sorted (l : List ℕ) : (sortNat l).Sorted (· ≤ ·) := by
  induction l with
  | nil => simp [sortNat]
  | cons x xs ih => exact insertSorted_sorted x _ ih

/-! ## Helper lemmas: the exact `f64` index model -/

theorem log2p_spec : ∀ (fuel n : ℕ), 1 ≤ n → n ≤ fuel →
    2 ^ log2p fuel n ≤ n ∧ n < 2 ^ (log2p fuel n + 1) := by
  intro fuel
  induction fuel with
  | zero => intro n h1 h2; omega
  | succ f ih =>
    intro n h1 h2
    rw [log2p]
    by_cases hn : n ≤ 1
    · have hn1 : n = 1 := by omega
      subst hn1; simp
    · rw [if_neg hn]
      have h2' : n / 2 ≤ f := by omega
      have h1' : 1 ≤ n / 2 := by omega
      obtain ⟨a, b⟩ := ih (n / 2) h1' h2'
      constructor
      · have : 2 ^ (log2p f (n / 2) + 1) = 2 * 2 ^ log2p f (n / 2) := by ring
        omega
      · have : 2 ^ (log2p f (n / 2) + 1 + 1) = 2 * 2 ^ (log2p f (n / 2) + 1) := by ring
        omega

theorem natLog2_spec (n : ℕ) (h : 1 ≤ n) :
    2 ^ natLog2 n ≤ n ∧ n < 2 ^ (natLog2 n + 1) :=
  log2p_spec n n h le_rfl

theorem roundCore_near (P g : ℕ) (hgpos : 0 < g) :
    2 * (if 2 * (P % g) > g ∨ (2 * (P % g) = g ∧ P / g % 2 = 1) then (P / g + 1) * g
         else P / g * g) ≤ 2 * P + g ∧
    2 * P ≤ 2 * (if 2 * (P % g) > g ∨ (2 * (P % g) = g ∧ P / g % 2 = 1) then (P / g + 1) * g
         else P / g * g) + g := by
  have hdm := Nat.div_add_mod P g
  have hrlt : P % g < g := Nat.mod_lt _ hgpos
  by_cases hc : 2 * (P % g) > g ∨ (2 * (P % g) = g ∧ P / g % 2 = 1)
  · rw [if_pos hc]
    have hS : (P / g + 1) * g = g * (P / g) + g := by ring
    rcases hc with hc | ⟨hc, _⟩ <;> omega
  · rw [if_neg hc]
    push_neg at hc
    have hS : P / g * g = g * (P / g) := by ring
    have h2r : 2 * (P % g) ≤ g := by
      rcases Nat.lt_or_ge (2 * (P % g)) g with h | h
      · omega
      · have := hc.1
        omega
    omega

theorem roundSig_near (P : ℕ) :
    2 * roundSig P ≤ 2 * P + 2 ^ (natLog2 P + 1 - 53) ∧
    2 * P ≤ 2 * roundSig P + 2 ^ (natLog2 P + 1 - 53) := by
  have h := roundCore_near P (2 ^ (natLog2 P + 1 - 53)) (by positivity)
  exact h

theorem roundSig_dvd (P : ℕ) : 2 ^ (natLog2 P + 1 - 53) ∣ roundSig P := by
  unfold roundSig
  set t := natLog2 P + 1 - 53
  set g := 2 ^ t
  by_cases hc : 2 * (P % g) > g ∨ (2 * (P % g) = g ∧ P / g % 2 = 1)
  · rw [if_pos hc]; exact Dvd.intro_left _ rfl
  · rw [if_neg hc]; exact Dvd.intro_left _ rfl

theorem mult_unique {g S M : ℕ} (_hgpos : 0 < g) (hS : g ∣ S) (hM : g ∣ M)
    (h1 : S < M + g) (h2 : M < S + g) : S = M := by
  obtain ⟨a, ha⟩ := hS
  obtain ⟨b, hb⟩ := hM
  subst ha hb
  have hab : a < b + 1 := by
    have hgb : g * (b + 1) = g * b + g := by ring
    exact Nat.lt_of_mul_lt_mul_left (a := g) (by omega)
  have hba : b < a + 1 := by
    have hga : g * (a + 1) = g * a + g := by ring
    exact Nat.lt_of_mul_lt_mul_left (a := g) (by omega)
  have hfin : a = b := by omega
  rw [hfin]

theorem percIdx95_eq (len : ℕ) (h1 : 1 ≤ len) (h2 : len < 2 ^ 32) :
    percIdx len m95 = len * 19 / 20 := by
  unfold percIdx m95
  set P := len * 8556839292003942 with hP
  obtain ⟨hn1, hn2⟩ := roundSig_near P
  set S := roundSig P with hSdef
  set t := natLog2 P + 1 - 53 with ht
  set g := 2 ^ t with hgdef
  have hgpos : 0 < g := by rw [hgdef]; positivity
  have hdvdS : g ∣ S := by rw [hSdef, hgdef, ht]; exact roundSig_dvd P
  have hCleP : 8556839292003942 ≤ P := by
    rw [hP]; exact Nat.le_mul_of_pos_left _ h1
  obtain ⟨hL1, hL2⟩ := natLog2_spec P (by omega)
  have hPrel : 20 * P + 8 * len = len * 19 * 2 ^ 53 := by
    rw [hP]
    calc 20 * (len * 8556839292003942) + 8 * len
        = len * (20 * 8556839292003942 + 8) := by ring
      _ = len * (19 * 2 ^ 53) := by norm_num
      _ = len * 19 * 2 ^ 53 := by ring
  by_cases hbig : 2 ^ 53 ≤ P
  · have hLge : 53 ≤ natLog2 P := by
      by_contra hcon
      push_neg at hcon
      have : 2 ^ (natLog2 P + 1) ≤ 2 ^ 53 := Nat.pow_le_pow_right (by norm_num) (by omega)
      omega
    have htL : t = natLog2 P - 52 := by omega
    have hg1 : 2 ^ 52 * g ≤ P := by
      have he : (52 : ℕ) + (natLog2 P - 52) = natLog2 P := by omega
      rw [hgdef, htL, ← pow_add, he]
      exact hL1
    have hg2 : P < 2 ^ 53 * g := by
      have he : (53 : ℕ) + (natLog2 P - 52) = natLog2 P + 1 := by omega
      rw [hgdef, htL, ← pow_add, he]
      exact hL2
    have hm53 : P < len * 2 ^ 53 := by
      rw [hP]
      exact mul_lt_mul_of_pos_left (by norm_num) (by omega)
    have hglen : g < 2 * len := by
      have h' : 2 ^ 52 * g < 2 ^ 52 * (2 * len) := by
        have he : len * 2 ^ 53 = 2 ^ 52 * (2 * len) := by ring
        omega
      exact Nat.lt_of_mul_lt_mul_left h'
    by_cases hr0 : len * 19 % 20 = 0
    · have hdvd53 : g ∣ 2 ^ 53 := by
        have hgsmall : g < 2 ^ 33 := by omega
        have ht33 : t ≤ 53 := by
          by_contra hcon
          push_neg at hcon
          have : 2 ^ 54 ≤ 2 ^ t := Nat.pow_le_pow_right (by norm_num) (by omega)
          rw [← hgdef] at this
          omega
        rw [hgdef]
        exact pow_dvd_pow 2 ht33
      have hdvdM : g ∣ len * 19 / 20 * 2 ^ 53 := Dvd.dvd.mul_left hdvd53 _
      have hSM : S = len * 19 / 20 * 2 ^ 53 :=
        mult_unique hgpos hdvdS hdvdM (by omega) (by omega)
      rw [hSM]
      exact Nat.mul_div_cancel _ (by positivity)
    · omega
  · have hlen1 : len = 1 := by
      by_contra hcon
      have h2le : 2 ≤ len := by omega
      have : 2 * 8556839292003942 ≤ P := by
        rw [hP]
        calc 2 * 8556839292003942 ≤ len * 8556839292003942 :=
          Nat.mul_le_mul_right _ h2le
        _ = P := by rw [hP]
      omega
    subst hlen1
    have hLle : natLog2 P ≤ 52 := by
      by_contra hcon
      push_neg at hcon
      have : 2 ^ 53 ≤ 2 ^ natLog2 P := Nat.pow_le_pow_right (by norm_num) (by omega)
      omega
    have ht0 : t = 0 := by omega
    rw [ht0] at hgdef
    omega

theorem percIdx99_eq (len : ℕ) (h1 : 1 ≤ len) (h2 : len < 2 ^ 32) :
    percIdx len m99 = len * 99 / 100 := by
  unfold percIdx m99
  set P := len * 8917127262193582 with hP
  obtain ⟨hn1, hn2⟩ := roundSig_near P
  set S := roundSig P with hSdef
  set t := natLog2 P + 1 - 53 with ht
  set g := 2 ^ t with hgdef
  have hgpos : 0 < g := by rw [hgdef]; positivity
  have hdvdS : g ∣ S := by rw [hSdef, hgdef, ht]; exact roundSig_dvd P
  have hCleP : 8917127262193582 ≤ P := by
    rw [hP]; exact Nat.le_mul_of_pos_left _ h1
  obtain ⟨hL1, hL2⟩ := natLog2_spec P (by omega)
  have hPrel : 100 * P + 8 * len = len * 99 * 2 ^ 53 := by
    rw [hP]
    calc 100 * (len * 8917127262193582) + 8 * len
        = len * (100 * 8917127262193582 + 8) := by ring
      _ = len * (99 * 2 ^ 53) := by norm_num
      _ = len * 99 * 2 ^ 53 := by ring
  by_cases hbig : 2 ^ 53 ≤ P
  · have hLge : 53 ≤ natLog2 P := by
      by_contra hcon
      push_neg at hcon
      have : 2 ^ (natLog2 P + 1) ≤ 2 ^ 53 := Nat.pow_le_pow_right (by norm_num) (by omega)
      omega
    have htL : t = natLog2 P - 52 := by omega
    have hg1 : 2 ^ 52 * g ≤ P := by
      have he : (52 : ℕ) + (natLog2 P - 52) = natLog2 P := by omega
      rw [hgdef, htL, ← pow_add, he]
      exact hL1
    have hg2 : P < 2 ^ 53 * g := by
      have he : (53 : ℕ) + (natLog2 P - 52) = natLog2 P + 1 := by omega
      rw [hgdef, htL, ← pow_add, he]
      exact hL2
    have hm53 : P < len * 2 ^ 53 := by
      rw [hP]
      exact mul_lt_mul_of_pos_left (by norm_num) (by omega)
    have hglen : g < 2 * len := by
      have h' : 2 ^ 52 * g < 2 ^ 52 * (2 * len) := by
        have he : len * 2 ^ 53 = 2 ^ 52 * (2 * len) := by ring
        omega
      exact Nat.lt_of_mul_lt_mul_left h'
    by_cases hr0 : len * 99 % 100 = 0
    · have hdvd53 : g ∣ 2 ^ 53 := by
        have hgsmall : g < 2 ^ 33 := by omega
        have ht33 : t ≤ 53 := by
          by_contra hcon
          push_neg at hcon
          have : 2 ^ 54 ≤ 2 ^ t := Nat.pow_le_pow_right (by norm_num) (by omega)
          rw [← hgdef] at this
          omega
        rw [hgdef]
        exact pow_dvd_pow 2 ht33
      have hdvdM : g ∣ len * 99 / 100 * 2 ^ 53 := Dvd.dvd.mul_left hdvd53 _
      have hSM : S = len * 99 / 100 * 2 ^ 53 :=
        mult_unique hgpos hdvdS hdvdM (by omega) (by omega)
      rw [hSM]
      exact Nat.mul_div_cancel _ (by positivity)
    · omega
  · have hlen1 : len = 1 := by
      by_contra hcon
      have h2le : 2 ≤ len := by omega
      have : 2 * 8917127262193582 ≤ P := by
        rw [hP]
        calc 2 * 8917127262193582 ≤ len * 8917127262193582 :=
          Nat.mul_le_mul_right _ h2le
        _ = P := by rw [hP]
      omega
    subst hlen1
    have hLle : natLog2 P ≤ 52 := by
      by_contra hcon
      push_neg at hcon
      have : 2 ^ 53 ≤ 2 ^ natLog2 P := Nat.pow_le_pow_right (by norm_num) (by omega)
      omega
    have ht0 : t = 0 := by omega
    rw [ht0] at hgdef
    omega

theorem percIdx95_lt (len : ℕ) (h1 : 1 ≤ len) (h2 : len < 2 ^ 32) :
    percIdx len m95 < len := by
  rw [percIdx95_eq len h1 h2]
  omega

theorem percIdx99_lt (len : ℕ) (h1 : 1 ≤ len) (h2 : len < 2 ^ 32) :
    percIdx len m99 < len := by
  rw [percIdx99_eq len h1 h2]
  omega

/-! ## Claim theorems -/

/-- C5: for every non-empty sample vector (its length is a `u32`
iteration count, hence below `2 ^ 32`), the simulated-run report indexes
the ascending-sorted samples at `floor(count * p)` for
p ∈ {0.5, 0.95, 0.99} — the `f64` index expressions equal the exact
floors — the reported min is the element at index 0, the max at index
`count - 1`, and every such index is within bounds. -/
theorem C5_percentile_indexing (iterations warmup : ℕ) (times : List ℕ)
    (h1 : 1 ≤ times.length) (h2 : times.length < 2 ^ 32) :
    (sortNat times).length = times.length
    ∧ times.length / 2 < times.length
    ∧ times.length * 19 / 20 < times.length
    ∧ times.length * 99 / 100 < times.length
    ∧ (ProviderResolution.run_simulated iterations warmup times).get "p50_ns"
        = some (jnat ((sortNat times).getD (times.length / 2) 0))
    ∧ (ProviderResolution.run_simulated iterations warmup times).get "p95_ns"
        = some (jnat ((sortNat times).getD (times.length * 19 / 20) 0))
    ∧ (ProviderResolution.run_simulated iterations warmup times).get "p99_ns"
        = some (jnat ((sortNat times).getD (times.length * 99 / 100) 0))
    ∧ (ProviderResolution.run_simulated iterations warmup times).get "min_ns"
        = some (jnat ((sortNat times).getD 0 0))
    ∧ (ProviderResolution.run_simulated iterations warmup times).get "max_ns"
        = some (jnat ((sortNat times).getD (times.length - 1) 0)) := by
  refine ⟨sortNat_length times, by omega, by omega, by omega, ?_, ?_, ?_, ?_, ?_⟩ <;>
    simp [ProviderResolution.run_simulated, JValue.get, sortNat_length,
      percIdx95_eq times.length h1 h2, percIdx99_eq times.length h1 h2]

/-- Witness for C5 at the concrete sample vector `[3, 1, 2]`. -/
theorem C5_witness :
    ((ProviderResolution.run_simulated 10 5 [3, 1, 2]).get "p95_ns"
      = some (jnat ((sortNat [3, 1, 2]).getD (([3, 1, 2] : List ℕ).length * 19 / 20) 0)))
    ∧ ((ProviderResolution.run_simulated 10 5 [3, 1, 2]).get "max_ns"
      = some (jnat ((sortNat [3, 1, 2]).getD (([3, 1, 2] : List ℕ).length - 1) 0))) :=
  ⟨(C5_percentile_indexing 10 5 [3, 1, 2] (by decide) (by decide)).2.2.2.2.2.1,
   (C5_percentile_indexing 10 5 [3, 1, 2] (by decide) (by decide)).2.2.2.2.2.2.2.2⟩

/-- C7: the SSE chunk parser extracts `"test"` from the sample data
line, maps the `[DONE]` sentinel to no content, and aggregation over the
Hello/world/!/DONE stream concatenates to `"Hello world!"`. -/
theorem C7_sse_parsing :
    StreamParsing.parse_sse_chunk
      "data: \x7b\"choices\":[\x7b\"delta\":\x7b\"content\":\"test\"\x7d\x7d]\x7d" = some "test"
    ∧ StreamParsing.parse_sse_chunk "data: [DONE]" = none
    ∧ StreamParsing.aggregate_chunks
        ["data: \x7b\"choices\":[\x7b\"delta\":\x7b\"content\":\"Hello\"\x7d\x7d]\x7d\n\n",
         "data: \x7b\"choices\":[\x7b\"delta\":\x7b\"content\":\" world\"\x7d\x7d]\x7d\n\n",
         "data: \x7b\"choices\":[\x7b\"delta\":\x7b\"content\":\"!\"\x7d\x7d]\x7d\n\n",
         "data: [DONE]\n\n"] = "Hello world!" := by
  refine ⟨by decide, by decide, by decide⟩

/-- C1 fails as stated: for the cache-operations run with unit samples
`[0]/[0]/[0]/[4]`, the four phase means are 0, 0, 0 and 4, whose
unweighted arithmetic mean is `(0 + 0 + 0 + 4) / 4 = 1`, but the
top-level `mean_ns` is 0 — the `get_miss` phase is left out of the
top-level combination. -/
theorem C1_counterexample :
    ((CacheOperations.run_simulated 1 [0] [0] [0] [4]).get "mean_ns" = some (jnat 0))
    ∧ (((CacheOperations.run_simulated 1 [0] [0] [0] [4]).get "key_generation").bind
        (fun p => p.get "mean_ns") = some (jnat 0))
    ∧ (((CacheOperations.run_simulated 1 [0] [0] [0] [4]).get "set_operation").bind
        (fun p => p.get "mean_ns") = some (jnat 0))
    ∧ (((CacheOperations.run_simulated 1 [0] [0] [0] [4]).get "get_hit").bind
        (fun p => p.get "mean_ns") = some (jnat 0))
    ∧ (((CacheOperations.run_simulated 1 [0] [0] [0] [4]).get "get_miss").bind
        (fun p => p.get "mean_ns") = some (jnat 4))
    ∧ some (jnat 0) ≠ some (jnat ((0 + 0 + 0 + 4) / 4)) := by
  refine ⟨by decide, by decide, by decide, by decide, by decide, by decide⟩

/-- C1 amended: the top-level `mean_ns` is the truncating mean of a
target-specific selection of phase means — for request-transformation
the mean of its two phase means, for cache-operations the mean of the
key-generation, set and get-hit means only (get-miss excluded; every
cache mean divides by the key-generation sample count), and for
stream-parsing the chunk-parsing mean alone — all in wrapping `u64`
arithmetic. -/
theorem C1_top_mean_amended :
    (∀ (it : ℕ) (kg st gh gm : List ℕ),
      (CacheOperations.run_simulated it kg st gh gm).get "mean_ns"
        = some (jnat ((kg.sum % 2 ^ 64 / kg.length + st.sum % 2 ^ 64 / kg.length
            + gh.sum % 2 ^ 64 / kg.length) % 2 ^ 64 / 3)))
    ∧ (∀ (it : ℕ) (req resp : List ℕ),
      (RequestTransformation.run_simulated it req resp).get "mean_ns"
        = some (jnat ((req.sum % 2 ^ 64 / req.length + resp.sum % 2 ^ 64 / resp.length)
            % 2 ^ 64 / 2)))
    ∧ (∀ (it : ℕ) (par agg : List ℕ),
      (StreamParsing.run_simulated it par agg).get "mean_ns"
        = some (jnat (par.sum % 2 ^ 64 / par.length))) := by
  refine ⟨?_, ?_, ?_⟩ <;> intros <;>
    simp [CacheOperations.run_simulated, RequestTransformation.run_simulated,
      StreamParsing.run_simulated, JValue.get, u64sum, u64add, jnat,
      sortNat_sum, sortNat_length]

/-- C6 fails as stated: the all-zero unit sample vector gives a zero
mean; the throughput division is still evaluated (the non-finite `f64`
quotient serializes as `null`) — there is no 1 ns floor and no error. -/
theorem C6_counterexample :
    ((ProviderResolution.run_simulated 1 100 [0]).get "mean_ns" = some (jnat 0))
    ∧ ((ProviderResolution.run_simulated 1 100 [0]).get "throughput" = some JValue.null)
    ∧ ((ProviderResolution.run_simulated 1 100 [0]).get "status" = some (.str "simulated")) := by
  refine ⟨by decide, by decide, by decide⟩

/-- C6 amended: the throughput divisors are not guaranteed positive — a
run whose samples are all zero has mean 0, the code neither floors the
mean to 1 ns nor rejects it, and the division is still performed: the
non-finite IEEE quotient lands in the metrics as `null` while the run
completes normally with `status: "simulated"`. -/
theorem C6_zero_mean_amended :
    (∀ (it wu : ℕ) (times : List ℕ), 1 ≤ times.length → (∀ x ∈ times, x = 0) →
      ((ProviderResolution.run_simulated it wu times).get "mean_ns" = some (jnat 0)
       ∧ (ProviderResolution.run_simulated it wu times).get "throughput" = some JValue.null
       ∧ (ProviderResolution.run_simulated it wu times).get "status" = some (.str "simulated")))
    ∧ (∀ (it : ℕ) (kg st gh gm : List ℕ), 1 ≤ kg.length → (∀ x ∈ gh, x = 0) →
      ((CacheOperations.run_simulated it kg st gh gm).get "throughput" = some JValue.null
       ∧ ((CacheOperations.run_simulated it kg st gh gm).get "get_hit").bind
            (fun p => p.get "throughput") = some JValue.null)) := by
  constructor
  · intro it wu times _h1 hz
    have hsum : times.sum = 0 := List.sum_eq_zero hz
    have hs : (sortNat times).sum = 0 := by rw [sortNat_sum, hsum]
    refine ⟨?_, ?_, ?_⟩ <;>
      simp [ProviderResolution.run_simulated, JValue.get, u64sum, hs, f64DivNat, jf64]
  · intro it kg st gh gm _h1 hz
    have hsum : gh.sum = 0 := List.sum_eq_zero hz
    have hs : (sortNat gh).sum = 0 := by rw [sortNat_sum, hsum]
    refine ⟨?_, ?_⟩ <;>
      simp [CacheOperations.run_simulated, JValue.get, u64sum, hs, f64DivNat, jf64]

/-- Witness for C6 amended at the all-zero vectors `[0, 0]`. -/
theorem C6_witness :
    ((ProviderResolution.run_simulated 5 2 [0, 0]).get "throughput" = some JValue.null)
    ∧ ((CacheOperations.run_simulated 2 [1, 2] [3] [0, 0] [7]).get "throughput"
        = some JValue.null) :=
  ⟨(C6_zero_mean_amended.1 5 2 [0, 0] (by decide) (by decide)).2.1,
   (C6_zero_mean_amended.2 2 [1, 2] [3] [0, 0] [7] (by decide) (by decide)).1⟩

/-- C2 fails as stated: a bridge subprocess that runs but exits non-zero
does not trigger the simulated fallback — the target returns a synthetic
`ts_benchmark_unavailable` metrics map instead of running the simulated
workload. -/
theorem C2_counterexample :
    ProviderResolution.run (.completed false "" 7) 1000 100 [5]
      = .ok (ProviderResolution.unavailableMetrics 7)
    ∧ ProviderResolution.run (.completed false "" 7) 1000 100 [5]
      ≠ .ok (ProviderResolution.run_simulated 1000 100 [5]) := by
  refine ⟨by decide, by decide⟩

/-- C2 amended: for every benchmark target, a failed subprocess spawn
(`Err` from `Command::output`) falls back to the simulated workload,
while a non-zero exit returns the synthetic unavailability metrics
without running the simulation; in both cases the target returns `Ok`,
so the unavailability is never surfaced to the Runner as a failure. -/
theorem C2_bridge_unavailable_amended :
    (∀ (msg out : String) (ns it wu : ℕ) (ts : List ℕ),
      ProviderResolution.run (.spawnFailed msg) it wu ts
        = .ok (ProviderResolution.run_simulated it wu ts)
      ∧ ProviderResolution.run (.completed false out ns) it wu ts
        = .ok (ProviderResolution.unavailableMetrics ns))
    ∧ (∀ (msg out : String) (ns it : ℕ) (a b : List ℕ),
      RequestTransformation.run (.spawnFailed msg) it a b
        = .ok (RequestTransformation.run_simulated it a b)
      ∧ RequestTransformation.run (.completed false out ns) it a b
        = .ok (RequestTransformation.unavailableMetrics ns))
    ∧ (∀ (msg out : String) (ns it : ℕ) (a b : List ℕ),
      MiddlewarePipeline.run (.spawnFailed msg) it a b
        = .ok (MiddlewarePipeline.run_simulated it a b)
      ∧ MiddlewarePipeline.run (.completed false out ns) it a b
        = .ok (MiddlewarePipeline.unavailableMetrics ns))
    ∧ (∀ (msg out : String) (ns it : ℕ) (a b c d : List ℕ),
      CacheOperations.run (.spawnFailed msg) it a b c d
        = .ok (CacheOperations.run_simulated it a b c d)
      ∧ CacheOperations.run (.completed false out ns) it a b c d
        = .ok (CacheOperations.unavailableMetrics ns))
    ∧ (∀ (msg out : String) (ns it : ℕ) (a b : List ℕ),
      StreamParsing.run (.spawnFailed msg) it a b
        = .ok (StreamParsing.run_simulated it a b)
      ∧ StreamParsing.run (.completed false out ns) it a b
        = .ok (StreamParsing.unavailableMetrics ns)) := by
  refine ⟨?_, ?_, ?_, ?_, ?_⟩ <;> intros <;> exact ⟨rfl, rfl⟩

/-- C3 fails as stated: the stream-parsing target never scans its
captured stdout — even when stdout is exactly a parseable JSON object,
its bridge path returns the minimal bridge metrics instead of the parsed
object. -/
theorem C3_counterexample :
    parseJson "\x7b\"mean_ns\":42\x7d" = some (.obj [("mean_ns", .num 42)])
    ∧ StreamParsing.run_ts_benchmark (.completed true "\x7b\"mean_ns\":42\x7d" 7)
        = .ok (StreamParsing.bridgeMetrics 7)
    ∧ RunResult.ok (JValue.obj [("mean_ns", .num 42)]) ≠ .ok (StreamParsing.bridgeMetrics 7) := by
  refine ⟨by decide, by decide, by decide⟩

/-- C3 amended: on a zero exit the provider-resolution,
request-transformation, middleware-pipeline and cache-operations bridge
clients scan stdout for the first `{` and last `}`; a parseable
inclusive slice is returned verbatim, an unparseable slice or absent
braces yields the minimal bridge metrics, and a last `}` lying two or
more positions before the first `{` makes the inclusive byte-range slice
panic; the stream-parsing client performs no scan at all and always
returns its minimal bridge metrics. -/
theorem C3_bridge_scan_amended :
    (∀ (out : String) (ns : ℕ),
      (∀ cs v, scanJson out.data = .slice cs → parseJson (String.mk cs) = some v →
        ProviderResolution.run_ts_benchmark (.completed true out ns) = .ok v)
      ∧ (∀ cs, scanJson out.data = .slice cs → parseJson (String.mk cs) = none →
        ProviderResolution.run_ts_benchmark (.completed true out ns)
          = .ok (ProviderResolution.bridgeFallbackMetrics ns))
      ∧ (scanJson out.data = .noBraces →
        ProviderResolution.run_ts_benchmark (.completed true out ns)
          = .ok (ProviderResolution.bridgeFallbackMetrics ns))
      ∧ (scanJson out.data = .invalidRange →
        ProviderResolution.run_ts_benchmark (.completed true out ns) = .panicked))
    ∧ (∀ (out : String) (ns : ℕ),
      (∀ cs v, scanJson out.data = .slice cs → parseJson (String.mk cs) = some v →
        RequestTransformation.run_ts_benchmark (.completed true out ns) = .ok v)
      ∧ (∀ cs, scanJson out.data = .slice cs → parseJson (String.mk cs) = none →
        RequestTransformation.run_ts_benchmark (.completed true out ns)
          = .ok (RequestTransformation.bridgeFallbackMetrics ns))
      ∧ (scanJson out.data = .noBraces →
        RequestTransformation.run_ts_benchmark (.completed true out ns)
          = .ok (RequestTransformation.bridgeFallbackMetrics ns))
      ∧ (scanJson out.data = .invalidRange →
        RequestTransformation.run_ts_benchmark (.completed true out ns) = .panicked))
    ∧ (∀ (out : String) (ns : ℕ),
      (∀ cs v, scanJson out.data = .slice cs → parseJson (String.mk cs) = some v →
        MiddlewarePipeline.run_ts_benchmark (.completed true out ns) = .ok v)
      ∧ (∀ cs, scanJson out.data = .slice cs → parseJson (String.mk cs) = none →
        MiddlewarePipeline.run_ts_benchmark (.completed true out ns)
          = .ok (MiddlewarePipeline.bridgeFallbackMetrics ns))
      ∧ (scanJson out.data = .noBraces →
        MiddlewarePipeline.run_ts_benchmark (.completed true out ns)
          = .ok (MiddlewarePipeline.bridgeFallbackMetrics ns))
      ∧ (scanJson out.data = .invalidRange →
        MiddlewarePipeline.run_ts_benchmark (.completed true out ns) = .panicked))
    ∧ (∀ (out : String) (ns : ℕ),
      (∀ cs v, scanJson out.data = .slice cs → parseJson (String.mk cs) = some v →
        CacheOperations.run_ts_benchmark (.completed true out ns) = .ok v)
      ∧ (∀ cs, scanJson out.data = .slice cs → parseJson (String.mk cs) = none →
        CacheOperations.run_ts_benchmark (.completed true out ns)
          = .ok (CacheOperations.bridgeFallbackMetrics ns))
      ∧ (scanJson out.data = .noBraces →
        CacheOperations.run_ts_benchmark (.completed true out ns)
          = .ok (CacheOperations.bridgeFallbackMetrics ns))
      ∧ (scanJson out.data = .invalidRange →
        CacheOperations.run_ts_benchmark (.completed true out ns) = .panicked))
    ∧ (∀ (out : String) (ns : ℕ),
      StreamParsing.run_ts_benchmark (.completed true out ns)
        = .ok (StreamParsing.bridgeMetrics ns)) := by
  refine ⟨?_, ?_, ?_, ?_, ?_⟩ <;> intro out ns
  · refine ⟨?_, ?_, ?_, ?_⟩
    · intro cs v h1 h2
      simp [ProviderResolution.run_ts_benchmark, h1, h2]
    · intro cs h1 h2
      simp [ProviderResolution.run_ts_benchmark, h1, h2]
    · intro h1
      simp [ProviderResolution.run_ts_benchmark, h1]
    · intro h1
      simp [ProviderResolution.run_ts_benchmark, h1]
  · refine ⟨?_, ?_, ?_, ?_⟩
    · intro cs v h1 h2
      simp [RequestTransformation.run_ts_benchmark, h1, h2]
    · intro cs h1 h2
      simp [RequestTransformation.run_ts_benchmark, h1, h2]
    · intro h1
      simp [RequestTransformation.run_ts_benchmark, h1]
    · intro h1
      simp [RequestTransformation.run_ts_benchmark, h1]
  · refine ⟨?_, ?_, ?_, ?_⟩
    · intro cs v h1 h2
      simp [MiddlewarePipeline.run_ts_benchmark, h1, h2]
    · intro cs h1 h2
      simp [MiddlewarePipeline.run_ts_benchmark, h1, h2]
    · intro h1
      simp [MiddlewarePipeline.run_ts_benchmark, h1]
    · intro h1
      simp [MiddlewarePipeline.run_ts_benchmark, h1]
  · refine ⟨?_, ?_, ?_, ?_⟩
    · intro cs v h1 h2
      simp [CacheOperations.run_ts_benchmark, h1, h2]
    · intro cs h1 h2
      simp [CacheOperations.run_ts_benchmark, h1, h2]
    · intro h1
      simp [CacheOperations.run_ts_benchmark, h1]
    · intro h1
      simp [CacheOperations.run_ts_benchmark, h1]
  · rfl

/-- Witness for C3 amended: a noisy stdout whose brace slice parses, and
the panic-range shape. -/
theorem C3_witness :
    ProviderResolution.run_ts_benchmark
      (.completed true "noise \x7b\"mean_ns\":42\x7d trailing" 5)
      = .ok (.obj [("mean_ns", .num 42)])
    ∧ CacheOperations.run_ts_benchmark (.completed true "\x7dx\x7b" 5) = .panicked :=
  ⟨(C3_bridge_scan_amended.1 "noise \x7b\"mean_ns\":42\x7d trailing" 5).1
      ("\x7b\"mean_ns\":42\x7d".data) (.obj [("mean_ns", .num 42)]) (by decide) (by decide),
   (C3_bridge_scan_amended.2.2.2.1 "\x7dx\x7b" 5).2.2.2 (by decide)⟩

/-! ## Helper lemmas: runner -/

theorem resultFor_id (t : Target) (ts : String) : (resultFor t ts).target_id = t.id := by
  rcases t with ⟨tid, outcome⟩
  cases outcome <;> rfl

theorem runAllAux_get (clock : ℕ → String) (ts : List Target) :
    ∀ (k i : ℕ), (runAllAux clock ts k)[i]? = (ts[i]?).map (fun t => resultFor t (clock (k + i))) := by
  induction ts with
  | nil => intro k i; simp [runAllAux]
  | cons t rest ih =>
    intro k i
    cases i with
    | zero => simp [runAllAux]
    | succ j =>
      have hadd : k + 1 + j = k + (j + 1) := by omega
      simp [runAllAux, ih (k + 1) j, hadd]

theorem runAllAux_length (clock : ℕ → String) (ts : List Target) :
    ∀ k, (runAllAux clock ts k).length = ts.length := by
  induction ts with
  | nil => intro k; rfl
  | cons t rest ih => intro k; simp [runAllAux, ih (k + 1)]

/-- C4: the runner returns exactly one result per target, in input
order, and wraps a failing target's outcome in the synthetic
`{"error": message, "status": "failed"}` metrics instead of aborting. -/
theorem C4_runner_total_count (targets : List Target) (clock : ℕ → String) :
    (run_all_benchmarks targets clock).length = targets.length
    ∧ ∀ i, i < targets.length →
        ((run_all_benchmarks targets clock)[i]?.map BenchmarkResult.target_id
            = (targets[i]?).map Target.id
          ∧ ∀ e, (targets[i]?).map Target.outcome = some (.error e) →
            (run_all_benchmarks targets clock)[i]?.map BenchmarkResult.metrics
              = some (errorMetrics e)) := by
  constructor
  · exact runAllAux_length clock targets 0
  · intro i hi
    have hget := runAllAux_get clock targets 0 i
    rcases List.getElem?_eq_getElem hi with hsome
    constructor
    · rw [run_all_benchmarks, hget, hsome]
      simp [resultFor_id]
    · intro e he
      rw [hsome] at he
      have houtcome : (targets[i]).outcome = .error e := by
        simpa using he
      rw [run_all_benchmarks, hget, hsome]
      rcases htarget : targets[i] with ⟨tid, outcome⟩
      rw [htarget] at houtcome
      simp only at houtcome
      subst houtcome
      rfl

/-- Witness for C4 on a two-target batch whose second target fails. -/
theorem C4_witness :
    ((run_all_benchmarks [⟨"a", .ok (.obj [])⟩, ⟨"b", .error "boom"⟩] (fun _ => "T"))[1]?.map
        BenchmarkResult.target_id
      = (([⟨"a", .ok (.obj [])⟩, ⟨"b", .error "boom"⟩] : List Target)[1]?).map Target.id)
    ∧ ((run_all_benchmarks [⟨"a", .ok (.obj [])⟩, ⟨"b", .error "boom"⟩] (fun _ => "T"))[1]?.map
        BenchmarkResult.metrics = some (errorMetrics "boom")) :=
  ⟨((C4_runner_total_count [⟨"a", .ok (.obj [])⟩, ⟨"b", .error "boom"⟩] (fun _ => "T")).2 1
      (by decide)).1,
   ((C4_runner_total_count [⟨"a", .ok (.obj [])⟩, ⟨"b", .error "boom"⟩] (fun _ => "T")).2 1
      (by decide)).2 "boom" (by decide)⟩


theorem runByIdAux_map_id (ids : List String) (clock : ℕ → String) (ts : List Target) :
    ∀ k, (runByIdAux ids clock ts k).map BenchmarkResult.target_id
      = (ts.map Target.id).filter (fun i => ids.contains i) := by
  induction ts with
  | nil => intro k; rfl
  | cons t rest ih =>
    intro k
    rw [runByIdAux]
    by_cases h : t.id ∈ ids
    · simp [h, resultFor_id, ih (k + 1)]
    · simp [h, ih k]

theorem runByIdAux_congr (ids ids2 : List String) (clock : ℕ → String) (ts : List Target)
    (h : ∀ x, ids.contains x = ids2.contains x) :
    ∀ k, runByIdAux ids clock ts k = runByIdAux ids2 clock ts k := by
  induction ts with
  | nil => intro k; rfl
  | cons t rest ih =>
    intro k
    rw [runByIdAux, runByIdAux, h t.id]
    by_cases h2 : t.id ∈ ids2
    · simp [h2, ih (k + 1)]
    · simp [h2, ih k]

/-- C10: the filtered runner emits exactly one result for each
registered target whose id occurs in the request, in registry order;
only membership of the request list matters (duplicates and order are
irrelevant), ids matching no registered target are ignored, and under
the registry's id uniqueness no id is reported twice. -/
theorem C10_filtered_runner (ids : List String) (registry : List Target) (clock : ℕ → String) :
    ((run_benchmarks_by_id ids registry clock).map BenchmarkResult.target_id
      = (registry.map Target.id).filter (fun i => ids.contains i))
    ∧ (∀ ids2 : List String, (∀ x, ids.contains x = ids2.contains x) →
        run_benchmarks_by_id ids registry clock = run_benchmarks_by_id ids2 registry clock)
    ∧ ((registry.map Target.id).Nodup → ∀ s : String,
        ((run_benchmarks_by_id ids registry clock).map BenchmarkResult.target_id).count s
          = if s ∈ registry.map Target.id ∧ s ∈ ids then 1 else 0) := by
  refine ⟨runByIdAux_map_id ids clock registry 0, ?_, ?_⟩
  · intro ids2 h
    exact runByIdAux_congr ids ids2 clock registry h 0
  · intro hnd s
    rw [run_benchmarks_by_id, runByIdAux_map_id ids clock registry 0]
    by_cases hc : s ∈ ids
    · have hps : (fun i => ids.contains i) s = true := by simpa using hc
      rw [List.count_filter hps]
      by_cases hm : s ∈ registry.map Target.id
      · rw [if_pos ⟨hm, hc⟩]
        exact List.count_eq_one_of_mem hnd hm
      · rw [if_neg (by tauto)]
        exact List.count_eq_zero_of_not_mem hm
    · rw [if_neg (by tauto)]
      apply List.count_eq_zero_of_not_mem
      intro hmem
      have := List.mem_filter.mp hmem
      simp at this
      exact hc this.2

/-- Witness for C10: a request list with an unknown id, a duplicate and
scrambled order yields one result per matched registered target, in
registry order, and is membership-equivalent to its deduplicated
reordering. -/
theorem C10_witness :
    ((run_benchmarks_by_id ["stream-parsing", "no-such-target", "cache-operations",
        "stream-parsing"]
      [⟨"cache-operations", .ok (.obj [])⟩, ⟨"stream-parsing", .ok (.obj [])⟩]
      (fun _ => "T")).map BenchmarkResult.target_id
      = ["cache-operations", "stream-parsing"])
    ∧ (run_benchmarks_by_id ["stream-parsing", "no-such-target", "cache-operations",
        "stream-parsing"]
      [⟨"cache-operations", .ok (.obj [])⟩, ⟨"stream-parsing", .ok (.obj [])⟩]
      (fun _ => "T")
      = run_benchmarks_by_id ["cache-operations", "no-such-target", "stream-parsing"]
        [⟨"cache-operations", .ok (.obj [])⟩, ⟨"stream-parsing", .ok (.obj [])⟩]
        (fun _ => "T")) := by
  constructor
  · rw [(C10_filtered_runner _ _ _).1]
    decide
  · refine (C10_filtered_runner _ _ _).2.1 _ ?_
    intro x
    rw [Bool.eq_iff_iff]
    constructor <;> intro hx <;> rw [List.elem_iff] at hx ⊢ <;> simp at hx <;> simp <;> tauto


/-! ## Helper lemmas: invertibility of the cache-key mix -/

theorem shiftRight_xor (x y n : ℕ) : (x ^^^ y) >>> n = (x >>> n) ^^^ (y >>> n) := by
  apply Nat.eq_of_testBit_eq
  intro i
  simp [Nat.testBit_shiftRight, Nat.testBit_xor]

theorem xorshift15_decode (z : ℕ) (hz : z < 2 ^ 32) :
    (z ^^^ (z >>> 15)) ^^^ ((z ^^^ (z >>> 15)) >>> 15) ^^^ ((z ^^^ (z >>> 15)) >>> 30) = z := by
  apply Nat.eq_of_testBit_eq
  intro i
  have h45 : ∀ j, 32 ≤ j → z.testBit j = false := by
    intro j hj
    apply Nat.testBit_lt_two_pow
    calc z < 2 ^ 32 := hz
      _ ≤ 2 ^ j := Nat.pow_le_pow_right (by norm_num) hj
  simp only [Nat.testBit_xor, Nat.testBit_shiftRight]
  have e45 : z.testBit (15 + (30 + i)) = false := h45 _ (by omega)
  have e30 : z.testBit (15 + (15 + i)) = z.testBit (30 + i) := by
    have harith : 15 + (15 + i) = 30 + i := by omega
    rw [harith]
  rw [e30, e45]
  by_cases hi : 32 ≤ 30 + i
  · rw [h45 _ hi]
    cases z.testBit i <;> cases z.testBit (15 + i) <;> rfl
  · cases z.testBit i <;> cases z.testBit (15 + i) <;> cases z.testBit (30 + i) <;> rfl

theorem xorshift15_inj (x y : ℕ) (hx : x < 2 ^ 32) (hy : y < 2 ^ 32)
    (h : x ^^^ (x >>> 15) = y ^^^ (y >>> 15)) : x = y := by
  calc x = (x ^^^ (x >>> 15)) ^^^ ((x ^^^ (x >>> 15)) >>> 15) ^^^ ((x ^^^ (x >>> 15)) >>> 30) :=
      (xorshift15_decode x hx).symm
    _ = (y ^^^ (y >>> 15)) ^^^ ((y ^^^ (y >>> 15)) >>> 15) ^^^ ((y ^^^ (y >>> 15)) >>> 30) := by
      rw [h]
    _ = y := xorshift15_decode y hy

theorem mulC_cancel (n : ℕ) (hn : n < 2 ^ 32) :
    n * 1540483477 % 2 ^ 32 * 3852147133 % 2 ^ 32 = n := by
  have h1 : n * 1540483477 % 2 ^ 32 * 3852147133 % 2 ^ 32
      = n * 1540483477 * 3852147133 % 2 ^ 32 := Nat.mod_mul_mod
  have h2 : n * 1540483477 * 3852147133 = n + n * 1381656390 * 2 ^ 32 := by ring
  rw [h1, h2, Nat.add_mul_mod_self_right, Nat.mod_eq_of_lt hn]

theorem mulC_inj (a b : ℕ) (ha : a < 2 ^ 32) (hb : b < 2 ^ 32)
    (h : a * 1540483477 % 2 ^ 32 = b * 1540483477 % 2 ^ 32) : a = b := by
  calc a = a * 1540483477 % 2 ^ 32 * 3852147133 % 2 ^ 32 := (mulC_cancel a ha).symm
    _ = b * 1540483477 % 2 ^ 32 * 3852147133 % 2 ^ 32 := by rw [h]
    _ = b := mulC_cancel b hb

theorem hexDigitChar_inj (x y : ℕ) (hx : x < 16) (hy : y < 16)
    (h : hexDigitChar x = hexDigitChar y) : x = y := by
  have hf : ∀ a b : Fin 16, hexDigitChar a.val = hexDigitChar b.val → a = b := by decide
  have := hf ⟨x, hx⟩ ⟨y, hy⟩ h
  simpa using this

theorem xor_shift_lt (z : ℕ) (hz : z < 2 ^ 32) : z ^^^ (z >>> 15) < 2 ^ 32 := by
  apply Nat.xor_lt_two_pow hz
  calc z >>> 15 = z / 2 ^ 15 := Nat.shiftRight_eq_div_pow z 15
    _ ≤ z := Nat.div_le_self z _
    _ < 2 ^ 32 := hz

set_option maxHeartbeats 1000000 in
/-- C8: the cache-key generator is a function of its seed alone
(referential transparency), and it is injective on `u32` seeds — in
particular the 1000 sequential seeds `0..999` yield pairwise distinct
keys. -/
theorem C8_cache_key (s1 s2 : ℕ) (hs1 : s1 < 1000) (hs2 : s2 < 1000) :
    (s1 = s2 → CacheOperations.generate_cache_key s1 = CacheOperations.generate_cache_key s2)
    ∧ (s1 ≠ s2 → CacheOperations.generate_cache_key s1 ≠ CacheOperations.generate_cache_key s2) := by
  constructor
  · intro h; rw [h]
  · intro hne heq
    apply hne
    unfold CacheOperations.generate_cache_key at heq
    have hdata := congrArg String.data heq
    simp only [String.data] at hdata
    have hlist := List.append_cancel_left hdata
    have h2a : (s1 * 1540483477 % 2 ^ 32) ^^^ ((s1 * 1540483477 % 2 ^ 32) >>> 15) < 2 ^ 32 :=
      xor_shift_lt (s1 * 1540483477 % 2 ^ 32) (Nat.mod_lt (s1 * 1540483477) (by norm_num))
    have h2b : (s2 * 1540483477 % 2 ^ 32) ^^^ ((s2 * 1540483477 % 2 ^ 32) >>> 15) < 2 ^ 32 :=
      xor_shift_lt (s2 * 1540483477 % 2 ^ 32) (Nat.mod_lt (s2 * 1540483477) (by norm_num))
    set u := (s1 * 1540483477 % 2 ^ 32) ^^^ ((s1 * 1540483477 % 2 ^ 32) >>> 15) with hu
    set v := (s2 * 1540483477 % 2 ^ 32) ^^^ ((s2 * 1540483477 % 2 ^ 32) >>> 15) with hv
    simp only [List.cons.injEq, and_true] at hlist
    obtain ⟨e7, e6, e5, e4, e3, e2, e1, e0⟩ := hlist
    have n7 := hexDigitChar_inj _ _ (by omega) (by omega) e7
    have n6 := hexDigitChar_inj _ _ (by omega) (by omega) e6
    have n5 := hexDigitChar_inj _ _ (by omega) (by omega) e5
    have n4 := hexDigitChar_inj _ _ (by omega) (by omega) e4
    have n3 := hexDigitChar_inj _ _ (by omega) (by omega) e3
    have n2 := hexDigitChar_inj _ _ (by omega) (by omega) e2
    have n1 := hexDigitChar_inj _ _ (by omega) (by omega) e1
    have n0 := hexDigitChar_inj _ _ (by omega) (by omega) e0
    have huv : u = v := by omega
    have huv2 : (s1 * 1540483477 % 2 ^ 32) ^^^ ((s1 * 1540483477 % 2 ^ 32) >>> 15)
        = (s2 * 1540483477 % 2 ^ 32) ^^^ ((s2 * 1540483477 % 2 ^ 32) >>> 15) := by
      rw [← hu, ← hv]
      exact huv
    have hmix : s1 * 1540483477 % 2 ^ 32 = s2 * 1540483477 % 2 ^ 32 :=
      xorshift15_inj _ _ (Nat.mod_lt (s1 * 1540483477) (by norm_num))
        (Nat.mod_lt (s2 * 1540483477) (by norm_num)) huv2
    have hs132 : s1 < 2 ^ 32 := lt_trans hs1 (by norm_num)
    have hs232 : s2 < 2 ^ 32 := lt_trans hs2 (by norm_num)
    exact mulC_inj s1 s2 hs132 hs232 hmix

/-- Witness for C8 at the seed pair (0, 1) and the repeated seed 5. -/
theorem C8_witness :
    (CacheOperations.generate_cache_key 5 = CacheOperations.generate_cache_key 5)
    ∧ CacheOperations.generate_cache_key 0 ≠ CacheOperations.generate_cache_key 1 :=
  ⟨(C8_cache_key 5 5 (by decide) (by decide)).1 rfl,
   (C8_cache_key 0 1 (by decide) (by decide)).2 (by decide)⟩

/-! ## Helper lemmas: decimal digit printing and parsing -/

theorem skipWs_not (c : Char) (l : List Char) (h : isJsonWs c = false) :
    skipWs (c :: l) = c :: l := by
  rw [skipWs, h]
  simp

theorem skipWs_ws (c : Char) (l : List Char) (h : isJsonWs c = true) :
    skipWs (c :: l) = skipWs l := by
  rw [skipWs, h]
  simp

theorem skipWs_idem (l : List Char) : skipWs (skipWs l) = skipWs l := by
  induction l with
  | nil => rfl
  | cons c cs ih =>
    by_cases h : isJsonWs c = true
    · rw [skipWs_ws c cs h, ih]
    · have h' : isJsonWs c = false := by revert h; cases isJsonWs c <;> simp
      rw [skipWs_not c cs h', skipWs_not c cs h']

theorem skipWs_spaces (m : ℕ) (l : List Char) :
    skipWs (List.replicate m ' ' ++ l) = skipWs l := by
  induction m with
  | zero => rfl
  | succ k ih =>
    rw [List.replicate_succ, List.cons_append, skipWs_ws _ _ (by decide), ih]

theorem skipWs_indent (n : ℕ) (l : List Char) :
    skipWs (indentChars n ++ l) = skipWs l :=
  skipWs_spaces (2 * n) l

theorem foldl_digits_acc (ds : List Char) : ∀ acc : ℕ,
    ds.foldl (fun a c => a * 10 + (c.toNat - 48)) acc
      = acc * 10 ^ ds.length + valOfDigits ds := by
  induction ds with
  | nil => intro acc; simp [valOfDigits]
  | cons c cs ih =>
    intro acc
    have h1 := ih (acc * 10 + (c.toNat - 48))
    have h2 := ih (c.toNat - 48)
    have hv : valOfDigits (c :: cs)
        = (c.toNat - 48) * 10 ^ cs.length + valOfDigits cs := by
      rw [valOfDigits, List.foldl_cons]
      have h0 : (0 : ℕ) * 10 + (c.toNat - 48) = c.toNat - 48 := by omega
      rw [h0, h2]
    rw [valOfDigits] at *
    rw [List.foldl_cons, h1, hv]
    have hp : 10 ^ (c :: cs).length = 10 ^ cs.length * 10 := by
      rw [List.length_cons, pow_succ]
    rw [hp]
    have hat : List.foldl (fun a c => a * 10 + (c.toNat - 48)) 0 cs = valOfDigits cs := rfl
    rw [hat]
    ring

theorem parseDigitsAux_full (ds : List Char) : ∀ (rest : List Char) (acc cnt : ℕ),
    (∀ c ∈ ds, c.isDigit = true) →
    (rest = [] ∨ ∃ c cs, rest = c :: cs ∧ c.isDigit = false) →
    parseDigitsAux (ds ++ rest) acc cnt
      = (acc * 10 ^ ds.length + valOfDigits ds, cnt + ds.length, rest) := by
  induction ds with
  | nil =>
    intro rest acc cnt _ hrest
    rcases hrest with rfl | ⟨c, cs, rfl, hc⟩
    · simp [parseDigitsAux, valOfDigits]
    · simp [parseDigitsAux, hc, valOfDigits]
  | cons d ds ih =>
    intro rest acc cnt hds hrest
    have hd : d.isDigit = true := hds d (by simp)
    rw [List.cons_append, parseDigitsAux, hd]
    simp only [if_true]
    rw [ih rest _ _ (fun c hc => hds c (by simp [hc])) hrest]
    refine Prod.ext ?_ (Prod.ext ?_ rfl)
    · show (acc * 10 + (d.toNat - 48)) * 10 ^ ds.length + valOfDigits ds
        = acc * 10 ^ (d :: ds).length + valOfDigits (d :: ds)
      have hv : valOfDigits (d :: ds)
          = (d.toNat - 48) * 10 ^ ds.length + valOfDigits ds := by
        rw [valOfDigits, List.foldl_cons]
        have h0 : (0 : ℕ) * 10 + (d.toNat - 48) = d.toNat - 48 := by omega
        rw [h0]
        exact foldl_digits_acc ds (d.toNat - 48)
      rw [hv, List.length_cons, pow_succ]
      ring
    · show cnt + 1 + ds.length = cnt + (d :: ds).length
      simp [List.length_cons]
      omega

theorem digitChar_isDigit (n : ℕ) (h : n < 10) : (digitChar n).isDigit = true := by
  have hf : ∀ a : Fin 10, (digitChar a.val).isDigit = true := by decide
  exact hf ⟨n, h⟩

theorem digitChar_toNat (n : ℕ) (h : n < 10) : (digitChar n).toNat = 48 + n := by
  have hf : ∀ a : Fin 10, (digitChar a.val).toNat = 48 + a.val := by decide
  exact hf ⟨n, h⟩

theorem digitChar_ne_zero (n : ℕ) (h1 : 1 ≤ n) (h2 : n < 10) : digitChar n ≠ '0' := by
  have hf : ∀ a : Fin 10, 1 ≤ a.val → digitChar a.val ≠ '0' := by decide
  exact hf ⟨n, h2⟩ h1

theorem natDigitsAux_spec : ∀ (fuel n : ℕ), n < fuel →
    (∀ c ∈ natDigitsAux fuel n, c.isDigit = true)
    ∧ valOfDigits (natDigitsAux fuel n) = n
    ∧ natDigitsAux fuel n ≠ [] := by
  intro fuel
  induction fuel with
  | zero => intro n h; omega
  | succ f ih =>
    intro n h
    rw [natDigitsAux]
    by_cases hn : n < 10
    · rw [if_pos hn]
      refine ⟨?_, ?_, by simp⟩
      · intro c hc
        simp at hc
        rw [hc]
        exact digitChar_isDigit n hn
      · rw [valOfDigits, List.foldl_cons, digitChar_toNat n hn]
        simp [valOfDigits]
    · rw [if_neg hn]
      have hlt : n / 10 < f := by omega
      obtain ⟨ha, hb, hc⟩ := ih (n / 10) hlt
      refine ⟨?_, ?_, by simp⟩
      · intro c hcmem
        rw [List.mem_append] at hcmem
        rcases hcmem with hm | hm
        · exact ha c hm
        · simp at hm
          rw [hm]
          exact digitChar_isDigit _ (by omega)
      · rw [valOfDigits, List.foldl_append, List.foldl_cons]
        have hstep := foldl_digits_acc (natDigitsAux f (n / 10)) 0
        rw [valOfDigits] at hb
        simp only [List.foldl_nil]
        rw [hb]
        rw [digitChar_toNat _ (by omega)]
        omega

theorem natDigits_spec (n : ℕ) :
    (∀ c ∈ natDigits n, c.isDigit = true)
    ∧ valOfDigits (natDigits n) = n
    ∧ natDigits n ≠ [] :=
  natDigitsAux_spec (n + 1) n (by omega)

theorem natDigitsAux_head : ∀ (fuel n : ℕ), n < fuel → 1 ≤ n →
    ∃ d ds, natDigitsAux fuel n = d :: ds ∧ d ≠ '0' := by
  intro fuel
  induction fuel with
  | zero => intro n h; omega
  | succ f ih =>
    intro n h h1
    rw [natDigitsAux]
    by_cases hn : n < 10
    · rw [if_pos hn]
      exact ⟨digitChar n, [], rfl, digitChar_ne_zero n h1 hn⟩
    · rw [if_neg hn]
      obtain ⟨d, ds, heq, hd⟩ := ih (n / 10) (by omega) (by omega)
      exact ⟨d, ds ++ [digitChar (n % 10)], by rw [heq]; rfl, hd⟩

theorem natDigitsAux_len : ∀ (fuel n k : ℕ), n < fuel → n < 10 ^ k → 1 ≤ k →
    (natDigitsAux fuel n).length ≤ k := by
  intro fuel
  induction fuel with
  | zero => intro n k h; omega
  | succ f ih =>
    intro n k h hk h1
    rw [natDigitsAux]
    by_cases hn : n < 10
    · rw [if_pos hn]
      simpa using h1
    · rw [if_neg hn]
      have hk2 : 2 ≤ k := by
        by_contra hcon
        have : k = 1 := by omega
        rw [this] at hk
        omega
      have hdiv : n / 10 < 10 ^ (k - 1) := by
        have hsplit : 10 ^ k = 10 ^ (k - 1) * 10 := by
          have hk1 : k = (k - 1) + 1 := by omega
          calc 10 ^ k = 10 ^ ((k - 1) + 1) := by rw [← hk1]
            _ = 10 ^ (k - 1) * 10 := pow_succ 10 (k - 1)
        omega
      have := ih (n / 10) (k - 1) (by omega) hdiv (by omega)
      rw [List.length_append]
      simp only [List.length_cons, List.length_nil]
      omega

theorem valOfDigits_cons (c : Char) (cs : List Char) :
    valOfDigits (c :: cs) = (c.toNat - 48) * 10 ^ cs.length + valOfDigits cs := by
  rw [valOfDigits, List.foldl_cons]
  have h0 : (0 : ℕ) * 10 + (c.toNat - 48) = c.toNat - 48 := by omega
  rw [h0]
  exact foldl_digits_acc cs (c.toNat - 48)

theorem valOfDigits_zeros (m : ℕ) (ds : List Char) :
    valOfDigits (List.replicate m '0' ++ ds) = valOfDigits ds := by
  induction m with
  | zero => rfl
  | succ j ih =>
    rw [List.replicate_succ, List.cons_append, valOfDigits_cons, ih]
    have h0 : '0'.toNat - 48 = 0 := by decide
    rw [h0]
    ring

theorem natDigits_zero : natDigits 0 = ['0'] := by decide

theorem natDigitsAux_mem : ∀ (fuel n : ℕ), ∀ c ∈ natDigitsAux fuel n,
    ∃ m, m < 10 ∧ c = digitChar m := by
  intro fuel
  induction fuel with
  | zero => intro n c hc; simp [natDigitsAux] at hc
  | succ f ih =>
    intro n c hc
    rw [natDigitsAux] at hc
    by_cases hn : n < 10
    · rw [if_pos hn] at hc
      simp at hc
      exact ⟨n, hn, hc⟩
    · rw [if_neg hn] at hc
      rw [List.mem_append] at hc
      rcases hc with h | h
      · exact ih _ c h
      · simp at h
        exact ⟨n % 10, by omega, h⟩

theorem digitChar_class (m : ℕ) (hm : m < 10) :
    isJsonWs (digitChar m) = false ∧ (digitChar m).isDigit = true
    ∧ digitChar m ≠ 'n' ∧ digitChar m ≠ 't' ∧ digitChar m ≠ 'f'
    ∧ digitChar m ≠ dquote ∧ digitChar m ≠ '[' ∧ digitChar m ≠ lbrace
    ∧ digitChar m ≠ ']' ∧ digitChar m ≠ rbrace ∧ digitChar m ≠ '-' := by
  have hf : ∀ a : Fin 10, isJsonWs (digitChar a.val) = false ∧ (digitChar a.val).isDigit = true
      ∧ digitChar a.val ≠ 'n' ∧ digitChar a.val ≠ 't' ∧ digitChar a.val ≠ 'f'
      ∧ digitChar a.val ≠ dquote ∧ digitChar a.val ≠ '[' ∧ digitChar a.val ≠ lbrace
      ∧ digitChar a.val ≠ ']' ∧ digitChar a.val ≠ rbrace ∧ digitChar a.val ≠ '-' := by decide
  exact hf ⟨m, hm⟩

theorem decExp_dvd (den : ℕ) (h : den ∣ 10 ^ 1100) : den ∣ 10 ^ decExp den := by
  have hp : (10 : ℕ) ^ 1100 % den = 0 := Nat.mod_eq_zero_of_dvd h
  have hsome : ((List.range 1101).find? (fun k => 10 ^ k % den = 0)).isSome = true := by
    rw [List.find?_isSome]
    exact ⟨1100, by simp [List.mem_range], by simpa using hp⟩
  obtain ⟨k0, hk0⟩ := Option.isSome_iff_exists.mp hsome
  have hpk := List.find?_some hk0
  have hk0d : (10 : ℕ) ^ k0 % den = 0 := by simpa using hpk
  have hdvd : den ∣ 10 ^ k0 := Nat.dvd_of_mod_eq_zero hk0d
  rw [decExp, hk0]
  simpa using hdvd

theorem safeAfter_nodigit (rest : List Char) (h : safeAfter rest) :
    rest = [] ∨ ∃ c cs, rest = c :: cs ∧ c.isDigit = false := by
  rcases h with rfl | ⟨c, cs, rfl, hc⟩
  · exact Or.inl rfl
  · exact Or.inr ⟨c, cs, rfl, by rcases hc with rfl | rfl <;> decide⟩

theorem parseIntPart_digits (n : ℕ) (rest : List Char)
    (hrest : rest = [] ∨ ∃ c cs, rest = c :: cs ∧ c.isDigit = false) :
    parseIntPart (natDigits n ++ rest) = some (n, rest) := by
  by_cases hn : n = 0
  · subst hn
    rw [natDigits_zero]
    rcases hrest with rfl | ⟨c, cs, rfl, hc⟩
    · simp [parseIntPart]
    · simp [parseIntPart, hc]
  · obtain ⟨d, ds, hds, hd0⟩ := natDigitsAux_head (n + 1) n (by omega) (by omega)
    have hnd : natDigits n = d :: ds := hds
    have hdig : ∀ c ∈ natDigits n, c.isDigit = true := (natDigits_spec n).1
    have hval : valOfDigits (natDigits n) = n := (natDigits_spec n).2.1
    rw [hnd] at hdig hval
    rw [hnd, List.cons_append]
    simp only [parseIntPart]
    rw [if_neg hd0, if_pos (hdig d (by simp))]
    rw [parseDigitsAux_full ds rest (d.toNat - 48) 1 (fun c hc => hdig c (by simp [hc])) hrest]
    rw [valOfDigits_cons] at hval
    simpa using hval

theorem parseFracPart_safe (rest : List Char) (h : safeAfter rest) :
    parseFracPart rest = some (0, 0, rest) := by
  rcases h with rfl | ⟨c, cs, rfl, hc⟩
  · rfl
  · have hcne : ¬(c = '.') := by rcases hc with rfl | rfl <;> decide
    cases cs with
    | nil => simp [parseFracPart, hcne]
    | cons d cs2 => simp [parseFracPart, hcne]

theorem parseExpPart_safe (rest : List Char) (h : safeAfter rest) :
    parseExpPart rest = some (0, rest) := by
  rcases h with rfl | ⟨c, cs, rfl, hc⟩
  · rfl
  · have hcne : ¬(c = 'e' ∨ c = 'E') := by rcases hc with rfl | rfl <;> decide
    simp [parseExpPart, hcne]

theorem parseFracPart_pad (k fv : ℕ) (rest : List Char) (hk : 1 ≤ k) (hfv : fv < 10 ^ k)
    (hrest : rest = [] ∨ ∃ c cs, rest = c :: cs ∧ c.isDigit = false) :
    parseFracPart ('.' :: ((List.replicate (k - (natDigits fv).length) '0' ++ natDigits fv) ++ rest))
      = some (fv, k, rest) := by
  have hlen : (natDigits fv).length ≤ k := natDigitsAux_len (fv + 1) fv k (by omega) hfv hk
  have hne : natDigits fv ≠ [] := (natDigits_spec fv).2.2
  obtain ⟨d, ds, hds⟩ : ∃ d ds,
      List.replicate (k - (natDigits fv).length) '0' ++ natDigits fv = d :: ds := by
    cases hpad : List.replicate (k - (natDigits fv).length) '0' with
    | nil =>
      cases hnd : natDigits fv with
      | nil => exact absurd hnd hne
      | cons d ds => exact ⟨d, ds, by simp [hpad, hnd]⟩
    | cons p ps => exact ⟨p, ps ++ natDigits fv, by simp [hpad]⟩
  have hdigall : ∀ c ∈ List.replicate (k - (natDigits fv).length) '0' ++ natDigits fv,
      c.isDigit = true := by
    intro c hc
    rw [List.mem_append] at hc
    rcases hc with hc | hc
    · rw [List.eq_of_mem_replicate hc]
      decide
    · exact (natDigits_spec fv).1 c hc
  have hvald : valOfDigits (List.replicate (k - (natDigits fv).length) '0' ++ natDigits fv) = fv := by
    rw [valOfDigits_zeros]
    exact (natDigits_spec fv).2.1
  have hlend : (List.replicate (k - (natDigits fv).length) '0' ++ natDigits fv).length = k := by
    rw [List.length_append, List.length_replicate]
    omega
  rw [hds] at hdigall hvald hlend
  rw [hds, List.cons_append, parseFracPart]
  rw [if_pos rfl, if_pos (hdigall d (by simp))]
  rw [parseDigitsAux_full ds rest (d.toNat - 48) 1 (fun c hc => hdigall c (by simp [hc])) hrest]
  rw [valOfDigits_cons] at hvald
  simp only [List.length_cons] at hlend
  simp only [Option.some.injEq, Prod.mk.injEq]
  exact ⟨hvald, by omega, trivial⟩

theorem parseNumber_neg_eq (X : List Char) : parseNumber ('-' :: X) = pnBody true X := rfl

theorem parseNumber_pos_eq (c : Char) (X : List Char) (h : ¬c = '-') :
    parseNumber (c :: X) = pnBody false (c :: X) := by
  simp only [parseNumber, pnBody, if_neg h]

theorem pnBody_eval (neg : Bool) (ip fv k : ℕ) (cs r1 rest : List Char)
    (h1 : parseIntPart cs = some (ip, r1))
    (h2 : parseFracPart r1 = some (fv, k, rest))
    (h3 : parseExpPart rest = some (0, rest)) :
    pnBody neg cs
      = some (mkRat ((if neg then (-1 : ℤ) else 1) * ((ip : ℤ) * 10 ^ k + (fv : ℤ))) (10 ^ k), rest) := by
  simp only [pnBody, h1, h2, h3]
  norm_num

theorem mkRat_eq_self (q : ℚ) (m : ℤ) (d : ℕ) (hd : 0 < d)
    (h : m * (q.den : ℤ) = q.num * (d : ℤ)) : mkRat m d = q := by
  have hdQ : (d : ℚ) ≠ 0 := by
    exact_mod_cast hd.ne'
  have hden : ((q.den : ℚ)) ≠ 0 := by
    exact_mod_cast q.den_nz
  have hc : (m : ℚ) * (q.den : ℚ) = (q.num : ℚ) * (d : ℚ) := by exact_mod_cast h
  rw [Rat.mkRat_eq_div, div_eq_iff hdQ]
  apply mul_right_cancel₀ hden
  rw [hc, ← Rat.mul_den_eq_num q]
  ring

theorem parseNumber_core (q : ℚ) (k : ℕ) (rest : List Char) (hdvd : q.den ∣ 10 ^ k)
    (hrest : safeAfter rest) :
    parseNumber (((if q.num < 0 then ['-'] else []) ++ natDigits (q.num.natAbs * 10 ^ k / q.den / 10 ^ k)
        ++ (if k = 0 then [] else
          '.' :: (List.replicate (k - (natDigits (q.num.natAbs * 10 ^ k / q.den % 10 ^ k)).length) '0'
            ++ natDigits (q.num.natAbs * 10 ^ k / q.den % 10 ^ k)))) ++ rest)
      = some (q, rest) := by
  have hpowpos : 0 < 10 ^ k := pow_pos (by norm_num) k
  set scaled := q.num.natAbs * 10 ^ k / q.den with hsc
  have hmul : scaled * q.den = q.num.natAbs * 10 ^ k := Nat.div_mul_cancel (hdvd.mul_left _)
  have hip := Nat.div_add_mod scaled (10 ^ k)
  have hrd := safeAfter_nodigit rest hrest
  have hfvlt : scaled % 10 ^ k < 10 ^ k := Nat.mod_lt _ hpowpos
  set T := (if k = 0 then ([] : List Char) else
      '.' :: (List.replicate (k - (natDigits (scaled % 10 ^ k)).length) '0'
        ++ natDigits (scaled % 10 ^ k))) ++ rest with hT
  have hT2 : T = [] ∨ ∃ c cs, T = c :: cs ∧ c.isDigit = false := by
    by_cases hk0 : k = 0
    · rw [hT, if_pos hk0, List.nil_append]
      exact hrd
    · rw [hT, if_neg hk0, List.cons_append]
      exact Or.inr ⟨'.', _, rfl, by decide⟩
  have h1 : parseIntPart (natDigits (scaled / 10 ^ k) ++ T) = some (scaled / 10 ^ k, T) :=
    parseIntPart_digits _ T hT2
  have h2 : parseFracPart T = some (scaled % 10 ^ k, k, rest) := by
    by_cases hk0 : k = 0
    · rw [hT, if_pos hk0, List.nil_append, parseFracPart_safe rest hrest]
      subst hk0
      rw [pow_zero, Nat.mod_one]
    · rw [hT, if_neg hk0, List.cons_append]
      exact parseFracPart_pad k _ rest (by omega) hfvlt hrd
  have h3 : parseExpPart rest = some (0, rest) := parseExpPart_safe rest hrest
  have hmulZ : (scaled : ℤ) * (q.den : ℤ) = (q.num.natAbs : ℤ) * (10 : ℤ) ^ k := by
    exact_mod_cast hmul
  have hipZ : (10 : ℤ) ^ k * ((scaled / 10 ^ k : ℕ) : ℤ) + ((scaled % 10 ^ k : ℕ) : ℤ)
      = (scaled : ℤ) := by exact_mod_cast hip
  by_cases hneg : q.num < 0
  · have habs : (q.num.natAbs : ℤ) = -q.num := by omega
    push_cast at habs
    rw [if_pos hneg]
    have hshape : ((['-'] ++ natDigits (scaled / 10 ^ k))
        ++ (if k = 0 then [] else
          '.' :: (List.replicate (k - (natDigits (scaled % 10 ^ k)).length) '0'
            ++ natDigits (scaled % 10 ^ k)))) ++ rest
        = '-' :: (natDigits (scaled / 10 ^ k) ++ T) := by
      rw [hT]
      simp [List.append_assoc]
    rw [hshape, parseNumber_neg_eq, pnBody_eval true _ _ k _ T rest h1 h2 h3]
    norm_num
    apply mkRat_eq_self q _ _ hpowpos
    push_cast
    push_cast at hipZ hmulZ
    linear_combination (-(q.den : ℤ)) * hipZ - hmulZ - (10 : ℤ) ^ k * habs
  · have habs : (q.num.natAbs : ℤ) = q.num := by omega
    push_cast at habs
    rw [if_neg hneg]
    obtain ⟨d0, ds, hds⟩ := List.exists_cons_of_ne_nil ((natDigits_spec (scaled / 10 ^ k)).2.2)
    have hds2 : natDigitsAux (scaled / 10 ^ k + 1) (scaled / 10 ^ k) = d0 :: ds := hds
    obtain ⟨m0, hm0, hdm⟩ :=
      natDigitsAux_mem _ _ d0 (by rw [hds2]; exact List.mem_cons_self d0 ds)
    subst hdm
    have hshape : (([] ++ natDigits (scaled / 10 ^ k))
        ++ (if k = 0 then [] else
          '.' :: (List.replicate (k - (natDigits (scaled % 10 ^ k)).length) '0'
            ++ natDigits (scaled % 10 ^ k)))) ++ rest
        = digitChar m0 :: (ds ++ T) := by
      rw [hT, List.nil_append, hds]
      simp [List.append_assoc]
    rw [hshape, parseNumber_pos_eq _ _ (digitChar_class m0 hm0).2.2.2.2.2.2.2.2.2.2]
    rw [← List.cons_append, ← hds, pnBody_eval false _ _ k _ T rest h1 h2 h3]
    norm_num
    apply mkRat_eq_self q _ _ hpowpos
    push_cast
    push_cast at hipZ hmulZ
    linear_combination ((q.den : ℤ)) * hipZ + hmulZ + (10 : ℤ) ^ k * habs

theorem parseNumber_print (q : ℚ) (rest : List Char) (hden : q.den ∣ 10 ^ 1100)
    (hrest : safeAfter rest) : parseNumber (printNum q ++ rest) = some (q, rest) := by
  have h := parseNumber_core q (decExp q.den) rest (decExp_dvd q.den hden) hrest
  simpa only [printNum] using h

/-! ## Helper lemmas: string escaping round-trips through the parser -/

theorem hexVal_hexDigitChar (n : ℕ) (h : n < 16) : hexVal (hexDigitChar n) = some n := by
  have hf : ∀ x : Fin 16, hexVal (hexDigitChar x.val) = some x.val := by decide
  exact hf ⟨n, h⟩

theorem parseHex4_dChars (a b : ℕ) (ha : a < 16) (hb : b < 16) (T : List Char) :
    parseHex4 ('0' :: '0' :: hexDigitChar a :: hexDigitChar b :: T) = some (a * 16 + b, T) := by
  simp only [parseHex4, hexVal_hexDigitChar a ha, hexVal_hexDigitChar b hb,
    show hexVal '0' = some 0 from rfl]
  norm_num

theorem strStepQuote (f : ℕ) (R acc : List Char) :
    parseStrAux (f + 1) (bslash :: dquote :: R) acc = parseStrAux f R (dquote :: acc) := rfl

theorem strStepBslash (f : ℕ) (R acc : List Char) :
    parseStrAux (f + 1) (bslash :: bslash :: R) acc = parseStrAux f R (bslash :: acc) := rfl

theorem strStepB (f : ℕ) (R acc : List Char) :
    parseStrAux (f + 1) (bslash :: 'b' :: R) acc = parseStrAux f R (Char.ofNat 8 :: acc) := rfl

theorem strStepT (f : ℕ) (R acc : List Char) :
    parseStrAux (f + 1) (bslash :: 't' :: R) acc = parseStrAux f R ('\t' :: acc) := rfl

theorem strStepN (f : ℕ) (R acc : List Char) :
    parseStrAux (f + 1) (bslash :: 'n' :: R) acc = parseStrAux f R ('\n' :: acc) := rfl

theorem strStepF (f : ℕ) (R acc : List Char) :
    parseStrAux (f + 1) (bslash :: 'f' :: R) acc = parseStrAux f R (Char.ofNat 12 :: acc) := rfl

theorem strStepR (f : ℕ) (R acc : List Char) :
    parseStrAux (f + 1) (bslash :: 'r' :: R) acc = parseStrAux f R ('\r' :: acc) := rfl

theorem strStepPlain (c : Char) (f : ℕ) (R acc : List Char) (h1 : ¬c = dquote)
    (h2 : ¬c = bslash) (h3 : ¬c.toNat < 32) :
    parseStrAux (f + 1) (c :: R) acc = parseStrAux f R (c :: acc) := by
  simp only [parseStrAux, if_neg h1, if_neg h2, if_neg h3]

theorem strStepU (f a b : ℕ) (T acc : List Char) (ha : a < 2) (hb : b < 16) :
    parseStrAux (f + 1) (bslash :: 'u' :: '0' :: '0' :: hexDigitChar a :: hexDigitChar b :: T) acc
      = parseStrAux f T (Char.ofNat (a * 16 + b) :: acc) := by
  have hh := parseHex4_dChars a b (by omega) hb T
  simp only [parseStrAux, hh]
  rw [if_neg (by omega : ¬(0xD800 ≤ a * 16 + b ∧ a * 16 + b < 0xDC00)),
    if_neg (by omega : ¬(0xDC00 ≤ a * 16 + b ∧ a * 16 + b < 0xE000))]
  simp only [if_neg (by decide : ¬(bslash = dquote)), if_neg (by decide : ¬('u' = dquote)),
    if_neg (by decide : ¬('u' = bslash))]
  simp

theorem escapeChar_length_pos (c : Char) : 1 ≤ (escapeChar c).length := by
  rw [escapeChar]
  split_ifs <;> simp

theorem escapeChar_ctrl (c : Char) (h1 : ¬c = dquote) (h2 : ¬c = bslash)
    (h3 : ¬c = Char.ofNat 8) (h4 : ¬c = '\t') (h5 : ¬c = '\n') (h6 : ¬c = Char.ofNat 12)
    (h7 : ¬c = '\r') (h8 : c.toNat < 32) :
    escapeChar c
      = [bslash, 'u', '0', '0', hexDigitChar (c.toNat / 16), hexDigitChar (c.toNat % 16)] := by
  rw [escapeChar, if_neg h1, if_neg h2, if_neg h3, if_neg h4, if_neg h5, if_neg h6, if_neg h7,
    if_pos h8]

theorem escapeChar_plain (c : Char) (h1 : ¬c = dquote) (h2 : ¬c = bslash)
    (h3 : ¬c = Char.ofNat 8) (h4 : ¬c = '\t') (h5 : ¬c = '\n') (h6 : ¬c = Char.ofNat 12)
    (h7 : ¬c = '\r') (h8 : ¬c.toNat < 32) : escapeChar c = [c] := by
  rw [escapeChar, if_neg h1, if_neg h2, if_neg h3, if_neg h4, if_neg h5, if_neg h6, if_neg h7,
    if_neg h8]

theorem mk_acc_cons (x : Char) (acc l : List Char) :
    String.mk ((x :: acc).reverse ++ l) = String.mk (acc.reverse ++ x :: l) := by
  rw [List.reverse_cons, List.append_assoc, List.singleton_append]

theorem parseStrAux_print (l : List Char) : ∀ (fuel : ℕ) (acc rest : List Char),
    ((l.map escapeChar).flatten).length < fuel →
    parseStrAux fuel ((l.map escapeChar).flatten ++ dquote :: rest) acc
      = some (String.mk (acc.reverse ++ l), rest) := by
  induction l with
  | nil =>
    intro fuel acc rest h
    cases fuel with
    | zero => omega
    | succ f =>
      simp only [List.map_nil, List.flatten_nil, List.nil_append]
      rw [show parseStrAux (f + 1) (dquote :: rest) acc = some (String.mk acc.reverse, rest)
        from rfl]
      rw [List.append_nil]
  | cons c l ih =>
    intro fuel acc rest h
    rw [List.map_cons, List.flatten_cons, List.length_append] at h
    cases fuel with
    | zero => omega
    | succ f =>
      have hlen1 : 1 ≤ (escapeChar c).length := escapeChar_length_pos c
      have hlt : ((l.map escapeChar).flatten).length < f := by omega
      rw [List.map_cons, List.flatten_cons, List.append_assoc]
      by_cases hc1 : c = dquote
      · subst hc1
        rw [show escapeChar dquote = [bslash, dquote] from rfl]
        simp only [List.cons_append, List.nil_append]
        rw [strStepQuote, ih f (dquote :: acc) rest hlt, mk_acc_cons]
      · by_cases hc2 : c = bslash
        · subst hc2
          rw [show escapeChar bslash = [bslash, bslash] from rfl]
          simp only [List.cons_append, List.nil_append]
          rw [strStepBslash, ih f (bslash :: acc) rest hlt, mk_acc_cons]
        · by_cases hc3 : c = Char.ofNat 8
          · subst hc3
            rw [show escapeChar (Char.ofNat 8) = [bslash, 'b'] from rfl]
            simp only [List.cons_append, List.nil_append]
            rw [strStepB, ih f (Char.ofNat 8 :: acc) rest hlt, mk_acc_cons]
          · by_cases hc4 : c = '\t'
            · subst hc4
              rw [show escapeChar '\t' = [bslash, 't'] from rfl]
              simp only [List.cons_append, List.nil_append]
              rw [strStepT, ih f ('\t' :: acc) rest hlt, mk_acc_cons]
            · by_cases hc5 : c = '\n'
              · subst hc5
                rw [show escapeChar '\n' = [bslash, 'n'] from rfl]
                simp only [List.cons_append, List.nil_append]
                rw [strStepN, ih f ('\n' :: acc) rest hlt, mk_acc_cons]
              · by_cases hc6 : c = Char.ofNat 12
                · subst hc6
                  rw [show escapeChar (Char.ofNat 12) = [bslash, 'f'] from rfl]
                  simp only [List.cons_append, List.nil_append]
                  rw [strStepF, ih f (Char.ofNat 12 :: acc) rest hlt, mk_acc_cons]
                · by_cases hc7 : c = '\r'
                  · subst hc7
                    rw [show escapeChar '\r' = [bslash, 'r'] from rfl]
                    simp only [List.cons_append, List.nil_append]
                    rw [strStepR, ih f ('\r' :: acc) rest hlt, mk_acc_cons]
                  · by_cases hc8 : c.toNat < 32
                    · rw [escapeChar_ctrl c hc1 hc2 hc3 hc4 hc5 hc6 hc7 hc8]
                      simp only [List.cons_append, List.nil_append]
                      rw [strStepU f (c.toNat / 16) (c.toNat % 16) _ _ (by omega) (by omega)]
                      rw [Nat.div_add_mod', Char.ofNat_toNat]
                      rw [ih f (c :: acc) rest hlt, mk_acc_cons]
                    · rw [escapeChar_plain c hc1 hc2 hc3 hc4 hc5 hc6 hc7 hc8]
                      simp only [List.cons_append, List.nil_append]
                      rw [strStepPlain c f _ acc hc1 hc2 hc8]
                      rw [ih f (c :: acc) rest hlt, mk_acc_cons]

theorem parseStr_print (s : String) (rest : List Char) :
    parseStr (escapeString s ++ dquote :: rest) = some (s, rest) := by
  obtain ⟨sd⟩ := s
  rw [parseStr]
  have hesc : escapeString (String.mk sd) = (sd.map escapeChar).flatten := rfl
  rw [hesc]
  have hlen : ((sd.map escapeChar).flatten).length
      < ((sd.map escapeChar).flatten ++ dquote :: rest).length + 1 := by
    rw [List.length_append]
    omega
  rw [parseStrAux_print sd _ [] rest hlen]
  simp

/-! ## Helper lemmas: whitespace congruence and printed-value heads -/

theorem parseValue_skipWs (fuel : ℕ) (cs : List Char) :
    parseValue fuel (skipWs cs) = parseValue fuel cs := by
  cases fuel with
  | zero => rfl
  | succ f => simp only [parseValue, skipWs_idem]

theorem parseElems_skipWs (fuel : ℕ) (cs : List Char) :
    parseElems fuel (skipWs cs) = parseElems fuel cs := by
  cases fuel with
  | zero => rfl
  | succ f => simp only [parseElems, parseValue_skipWs]

theorem parseFields_skipWs (fuel : ℕ) (cs : List Char) :
    parseFields fuel (skipWs cs) = parseFields fuel cs := by
  cases fuel with
  | zero => rfl
  | succ f => simp only [parseFields, skipWs_idem]

theorem printNum_head (q : ℚ) :
    ∃ c tl, printNum q = c :: tl ∧ isJsonWs c = false
      ∧ ¬c = 'n' ∧ ¬c = 't' ∧ ¬c = 'f' ∧ ¬c = dquote ∧ ¬c = '[' ∧ ¬c = lbrace
      ∧ ¬c = ']' ∧ ¬c = rbrace ∧ (c = '-' ∨ c.isDigit = true) := by
  by_cases hneg : q.num < 0
  · have htl : printNum q = '-' :: (natDigits (q.num.natAbs * 10 ^ decExp q.den / q.den / 10 ^ decExp q.den)
        ++ (if decExp q.den = 0 then [] else
          '.' :: (List.replicate (decExp q.den
              - (natDigits (q.num.natAbs * 10 ^ decExp q.den / q.den % 10 ^ decExp q.den)).length) '0'
            ++ natDigits (q.num.natAbs * 10 ^ decExp q.den / q.den % 10 ^ decExp q.den)))) := by
      simp [printNum, hneg]
    exact ⟨'-', _, htl, by decide, by decide, by decide, by decide, by decide, by decide,
      by decide, by decide, by decide, Or.inl rfl⟩
  · have hsh : ∃ m tl, m < 10 ∧ printNum q = digitChar m :: tl := by
      obtain ⟨d, ds, hds⟩ := List.exists_cons_of_ne_nil
        ((natDigits_spec (q.num.natAbs * 10 ^ decExp q.den / q.den / 10 ^ decExp q.den)).2.2)
      have hds2 : natDigitsAux (q.num.natAbs * 10 ^ decExp q.den / q.den / 10 ^ decExp q.den + 1)
          (q.num.natAbs * 10 ^ decExp q.den / q.den / 10 ^ decExp q.den) = d :: ds := hds
      obtain ⟨m, hm, hdm⟩ := natDigitsAux_mem _ _ d (by rw [hds2]; exact List.mem_cons_self d ds)
      refine ⟨m, ds ++ (if decExp q.den = 0 then [] else
        '.' :: (List.replicate (decExp q.den
            - (natDigits (q.num.natAbs * 10 ^ decExp q.den / q.den % 10 ^ decExp q.den)).length) '0'
          ++ natDigits (q.num.natAbs * 10 ^ decExp q.den / q.den % 10 ^ decExp q.den))), hm, ?_⟩
      subst hdm
      simp [printNum, hneg, hds]
    obtain ⟨m, tl, hm, htl⟩ := hsh
    obtain ⟨f1, f2, f3, f4, f5, f6, f7, f8, f9, f10, f11⟩ := digitChar_class m hm
    exact ⟨digitChar m, tl, htl, f1, f3, f4, f5, f6, f7, f8, f9, f10, Or.inr f2⟩

theorem printValue_cons (ind : ℕ) (v : JValue) :
    ∃ c tl, printValue ind v = c :: tl ∧ isJsonWs c = false ∧ ¬c = ']' ∧ ¬c = rbrace := by
  cases v with
  | null => exact ⟨'n', _, rfl, by decide, by decide, by decide⟩
  | jbool b =>
    cases b with
    | true => refine ⟨'t', _, rfl, ?_, ?_, ?_⟩ <;> decide
    | false => refine ⟨'f', _, rfl, ?_, ?_, ?_⟩ <;> decide
  | num q =>
    obtain ⟨c, tl, hc, h1, _, _, _, _, _, _, h9, h10, _⟩ := printNum_head q
    exact ⟨c, tl, by rw [show printValue ind (.num q) = printNum q from rfl, hc], h1, h9, h10⟩
  | str s => exact ⟨dquote, _, rfl, by decide, by decide, by decide⟩
  | arr es =>
    cases es with
    | nil => exact ⟨'[', _, rfl, by decide, by decide, by decide⟩
    | cons e es2 => exact ⟨'[', _, rfl, by decide, by decide, by decide⟩
  | obj fs =>
    cases fs with
    | nil => exact ⟨lbrace, _, rfl, by decide, by decide, by decide⟩
    | cons f fs2 => exact ⟨lbrace, _, rfl, by decide, by decide, by decide⟩

theorem skipWs_printItems_single (ind : ℕ) (e : JValue) (A : List Char) :
    skipWs (printItems ind [e] ++ A) = printValue (ind + 1) e ++ A := by
  obtain ⟨cv, tv, hcv, hnws, _, _⟩ := printValue_cons (ind + 1) e
  show skipWs (('\n' :: (indentChars (ind + 1) ++ printValue (ind + 1) e)) ++ A) = _
  rw [List.cons_append, skipWs_ws _ _ (by decide), List.append_assoc, skipWs_indent, hcv,
    List.cons_append, skipWs_not _ _ hnws]

theorem skipWs_printItems_multi (ind : ℕ) (e e2 : JValue) (es2 : List JValue) (A : List Char) :
    skipWs (printItems ind (e :: e2 :: es2) ++ A)
      = printValue (ind + 1) e ++ (',' :: (printItems ind (e2 :: es2) ++ A)) := by
  obtain ⟨cv, tv, hcv, hnws, _, _⟩ := printValue_cons (ind + 1) e
  show skipWs (('\n' :: (indentChars (ind + 1) ++ printValue (ind + 1) e
      ++ ',' :: printItems ind (e2 :: es2))) ++ A) = _
  rw [List.cons_append, skipWs_ws _ _ (by decide)]
  simp only [List.append_assoc, List.cons_append, List.singleton_append, List.nil_append]
  rw [skipWs_indent, hcv, List.cons_append, skipWs_not _ _ hnws]

theorem skipWs_printFields_single (ind : ℕ) (k : String) (v : JValue) (A : List Char) :
    skipWs (printFields ind [(k, v)] ++ A)
      = dquote :: (escapeString k ++ dquote :: (':' :: ' ' :: (printValue (ind + 1) v ++ A))) := by
  show skipWs (('\n' :: (indentChars (ind + 1) ++ (dquote :: (escapeString k ++ [dquote]))
      ++ ':' :: ' ' :: printValue (ind + 1) v)) ++ A) = _
  rw [List.cons_append, skipWs_ws _ _ (by decide)]
  simp only [List.append_assoc, List.cons_append, List.singleton_append, List.nil_append]
  rw [skipWs_indent, skipWs_not _ _ (by decide : isJsonWs dquote = false)]

theorem skipWs_printFields_multi (ind : ℕ) (k : String) (v : JValue) (f2 : String × JValue)
    (fs2 : List (String × JValue)) (A : List Char) :
    skipWs (printFields ind ((k, v) :: f2 :: fs2) ++ A)
      = dquote :: (escapeString k ++ dquote :: (':' :: ' '
          :: (printValue (ind + 1) v ++ ',' :: (printFields ind (f2 :: fs2) ++ A)))) := by
  show skipWs (('\n' :: (indentChars (ind + 1) ++ (dquote :: (escapeString k ++ [dquote]))
      ++ ':' :: ' ' :: printValue (ind + 1) v ++ ',' :: printFields ind (f2 :: fs2))) ++ A) = _
  rw [List.cons_append, skipWs_ws _ _ (by decide)]
  simp only [List.append_assoc, List.cons_append, List.singleton_append, List.nil_append]
  rw [skipWs_indent, skipWs_not _ _ (by decide : isJsonWs dquote = false)]

theorem parseValue_ws_cons (fuel : ℕ) (c : Char) (X : List Char) (h : isJsonWs c = true) :
    parseValue fuel (c :: X) = parseValue fuel X := by
  calc parseValue fuel (c :: X) = parseValue fuel (skipWs (c :: X)) :=
        (parseValue_skipWs _ _).symm
    _ = parseValue fuel (skipWs X) := by rw [skipWs_ws _ _ h]
    _ = parseValue fuel X := parseValue_skipWs _ _

theorem cost_pos (v : JValue) : 1 ≤ cost v := by
  cases v with
  | null => simp [cost]
  | jbool b => simp [cost]
  | num q => simp [cost]
  | str s => simp [cost]
  | arr es =>
    cases es with
    | nil => simp [cost]
    | cons e es2 => simp [cost]
  | obj fs =>
    cases fs with
    | nil => simp [cost]
    | cons f fs2 => simp [cost]

theorem costItems_pos (es : List JValue) : 1 ≤ costItems es := by
  cases es with
  | nil => simp [costItems]
  | cons e es2 =>
    simp only [costItems]
    omega

theorem costFields_pos (fs : List (String × JValue)) : 1 ≤ costFields fs := by
  cases fs with
  | nil => simp [costFields]
  | cons f fs2 =>
    obtain ⟨k, v⟩ := f
    simp only [costFields]
    omega

theorem parse_print_all (fuel : ℕ) :
    (∀ (v : JValue) (ind : ℕ) (rest : List Char), decimalOK v = true → safeAfter rest →
      cost v ≤ fuel → parseValue fuel (printValue ind v ++ rest) = some (v, rest))
    ∧ (∀ (e : JValue) (es : List JValue) (ind : ℕ) (rest : List Char),
        decimalOKList (e :: es) = true → costItems (e :: es) ≤ fuel →
        parseElems fuel (skipWs (printItems ind (e :: es)
          ++ '\n' :: (indentChars ind ++ ']' :: rest))) = some (e :: es, rest))
    ∧ (∀ (f0 : String × JValue) (fs : List (String × JValue)) (ind : ℕ) (rest : List Char),
        decimalOKFields (f0 :: fs) = true → costFields (f0 :: fs) ≤ fuel →
        parseFields fuel (printFields ind (f0 :: fs)
          ++ '\n' :: (indentChars ind ++ rbrace :: rest)) = some (f0 :: fs, rest)) := by
  induction fuel with
  | zero =>
    refine ⟨?_, ?_, ?_⟩
    · intro v ind rest _ _ hcost
      have := cost_pos v
      omega
    · intro e es ind rest _ hcost
      have := costItems_pos (e :: es)
      omega
    · intro f0 fs ind rest _ hcost
      have := costFields_pos (f0 :: fs)
      omega
  | succ f ih =>
    obtain ⟨ihV, ihE, ihF⟩ := ih
    refine ⟨?_, ?_, ?_⟩
    · intro v ind rest hdec hsafe hcost
      cases v with
      | null => exact rfl
      | jbool b => cases b with | true => exact rfl | false => exact rfl
      | num q =>
        have hden : q.den ∣ 10 ^ 1100 := by simpa [decimalOK] using hdec
        obtain ⟨c, tl, hc, h1, h3, h4, h5, h6, h7, h8, _, _, h11⟩ := printNum_head q
        have hshape : printValue ind (.num q) ++ rest = c :: (tl ++ rest) := by
          rw [show printValue ind (.num q) = printNum q from rfl, hc, List.cons_append]
        rw [hshape]
        simp only [parseValue, skipWs_not _ _ h1]
        rw [if_neg h3, if_neg h4, if_neg h5, if_neg h6, if_neg h7, if_neg h8, if_pos h11]
        rw [← List.cons_append, ← hc, parseNumber_print q rest hden hsafe]
        rfl
      | str s =>
        have hshape : printValue ind (.str s) ++ rest
            = dquote :: (escapeString s ++ dquote :: rest) := by
          show (dquote :: (escapeString s ++ [dquote])) ++ rest = _
          simp [List.append_assoc]
        rw [hshape]
        have hstep : parseValue (f + 1) (dquote :: (escapeString s ++ dquote :: rest))
            = (parseStr (escapeString s ++ dquote :: rest)).map (fun p => (.str p.1, p.2)) := rfl
        rw [hstep, parseStr_print]
        rfl
      | arr es =>
        cases es with
        | nil => exact rfl
        | cons e es2 =>
          have hdecL : decimalOKList (e :: es2) = true := by simpa [decimalOK] using hdec
          have hcost2 : costItems (e :: es2) ≤ f := by
            have hce : cost (.arr (e :: es2)) = 1 + costItems (e :: es2) := rfl
            omega
          have hE := ihE e es2 ind rest hdecL hcost2
          have hshape : printValue ind (.arr (e :: es2)) ++ rest
              = '[' :: (printItems ind (e :: es2) ++ '\n' :: (indentChars ind ++ ']' :: rest)) := by
            show ('[' :: (printItems ind (e :: es2) ++ '\n' :: (indentChars ind ++ [']']))) ++ rest
              = _
            simp [List.append_assoc]
          rw [hshape]
          obtain ⟨c0, tl0, hS, hc0⟩ : ∃ c0 tl0,
              skipWs (printItems ind (e :: es2) ++ '\n' :: (indentChars ind ++ ']' :: rest))
                = c0 :: tl0 ∧ ¬c0 = ']' := by
            obtain ⟨cv, tv, hcv, hnws, hne1, _⟩ := printValue_cons (ind + 1) e
            cases es2 with
            | nil =>
              refine ⟨cv, tv ++ '\n' :: (indentChars ind ++ ']' :: rest), ?_, hne1⟩
              rw [skipWs_printItems_single, hcv, List.cons_append]
            | cons e2 es3 =>
              refine ⟨cv, tv ++ (',' :: (printItems ind (e2 :: es3)
                ++ '\n' :: (indentChars ind ++ ']' :: rest))), ?_, hne1⟩
              rw [skipWs_printItems_multi, hcv, List.cons_append]
          simp only [parseValue, skipWs_not _ _ (by decide : isJsonWs '[' = false), hS]
          rw [if_neg (by decide : ¬('[' = dquote))]
          rw [if_pos trivial, if_neg hc0, ← hS, hE]
          rfl
      | obj fs =>
        cases fs with
        | nil => exact rfl
        | cons f0 fs2 =>
          have hdecF : decimalOKFields (f0 :: fs2) = true := by simpa [decimalOK] using hdec
          have hcost2 : costFields (f0 :: fs2) ≤ f := by
            have hce : cost (.obj (f0 :: fs2)) = 1 + costFields (f0 :: fs2) := rfl
            omega
          have hF := ihF f0 fs2 ind rest hdecF hcost2
          have hshape : printValue ind (.obj (f0 :: fs2)) ++ rest
              = lbrace :: (printFields ind (f0 :: fs2)
                  ++ '\n' :: (indentChars ind ++ rbrace :: rest)) := by
            show (lbrace :: (printFields ind (f0 :: fs2)
              ++ '\n' :: (indentChars ind ++ [rbrace]))) ++ rest = _
            simp [List.append_assoc]
          rw [hshape]
          obtain ⟨tl0, hS⟩ : ∃ tl0,
              skipWs (printFields ind (f0 :: fs2) ++ '\n' :: (indentChars ind ++ rbrace :: rest))
                = dquote :: tl0 := by
            obtain ⟨k0, v0⟩ := f0
            cases fs2 with
            | nil => exact ⟨_, skipWs_printFields_single ind k0 v0 _⟩
            | cons f1 fs3 => exact ⟨_, skipWs_printFields_multi ind k0 v0 f1 fs3 _⟩
          simp only [parseValue, skipWs_not _ _ (by decide : isJsonWs lbrace = false), hS]
          rw [if_neg (by decide : ¬(lbrace = dquote))]
          rw [if_pos trivial, if_neg (by decide : ¬(dquote = rbrace)), ← hS,
            parseFields_skipWs, hF]
          rfl
    · intro e es ind rest hdec hcost
      have hdecE : decimalOK e = true ∧ decimalOKList es = true := by
        simpa [decimalOKList, Bool.and_eq_true] using hdec
      cases es with
      | nil =>
        rw [skipWs_printItems_single]
        have hcostV : cost e ≤ f := by
          have h1 : costItems [e] = 1 + cost e + 1 := rfl
          omega
        have hVal := ihV e (ind + 1) ('\n' :: (indentChars ind ++ ']' :: rest)) hdecE.1
          (Or.inr ⟨'\n', _, rfl, Or.inr rfl⟩) hcostV
        have hA : skipWs ('\n' :: (indentChars ind ++ ']' :: rest)) = ']' :: rest := by
          rw [skipWs_ws _ _ (by decide), skipWs_indent, skipWs_not _ _ (by decide)]
        simp only [parseElems, hVal, hA]
        simp
      | cons e2 es2 =>
        rw [skipWs_printItems_multi]
        have hcostV : cost e ≤ f ∧ costItems (e2 :: es2) ≤ f := by
          have h1 : costItems (e :: e2 :: es2) = 1 + cost e + costItems (e2 :: es2) := rfl
          have h2 := costItems_pos (e2 :: es2)
          have h3 := cost_pos e
          omega
        have hVal := ihV e (ind + 1) (',' :: (printItems ind (e2 :: es2)
          ++ '\n' :: (indentChars ind ++ ']' :: rest))) hdecE.1
          (Or.inr ⟨',', _, rfl, Or.inl rfl⟩) hcostV.1
        have hE2 := ihE e2 es2 ind rest hdecE.2 hcostV.2
        have hcomma := skipWs_not ',' (printItems ind (e2 :: es2)
          ++ '\n' :: (indentChars ind ++ ']' :: rest)) (by decide)
        simp only [parseElems, hVal, hcomma]
        rw [if_pos trivial, ← parseElems_skipWs, hE2]
        rfl
    · intro f0 fs ind rest hdec hcost
      obtain ⟨k0, v0⟩ := f0
      have hdecF : decimalOK v0 = true ∧ decimalOKFields fs = true := by
        simpa [decimalOKFields, Bool.and_eq_true] using hdec
      cases fs with
      | nil =>
        have hQ := skipWs_printFields_single ind k0 v0 ('\n' :: (indentChars ind ++ rbrace :: rest))
        have hcostV : cost v0 ≤ f := by
          have h1 : costFields [(k0, v0)] = 1 + cost v0 + 1 := rfl
          omega
        have hVal := ihV v0 (ind + 1) ('\n' :: (indentChars ind ++ rbrace :: rest)) hdecF.1
          (Or.inr ⟨'\n', _, rfl, Or.inr rfl⟩) hcostV
        have hPS := parseStr_print k0 (':' :: ' ' :: (printValue (ind + 1) v0
          ++ '\n' :: (indentChars ind ++ rbrace :: rest)))
        have hws : parseValue f (' ' :: (printValue (ind + 1) v0
            ++ '\n' :: (indentChars ind ++ rbrace :: rest)))
            = some (v0, '\n' :: (indentChars ind ++ rbrace :: rest)) := by
          rw [parseValue_ws_cons _ _ _ (by decide), hVal]
        have hA : skipWs ('\n' :: (indentChars ind ++ rbrace :: rest)) = rbrace :: rest := by
          rw [skipWs_ws _ _ (by decide), skipWs_indent,
            skipWs_not _ _ (by decide : isJsonWs rbrace = false)]
        have hcol := skipWs_not ':' (' ' :: (printValue (ind + 1) v0
          ++ '\n' :: (indentChars ind ++ rbrace :: rest))) (by decide)
        simp only [parseFields, hQ, if_pos (rfl : dquote = dquote), hPS, hcol, hws, hA]
        simp [if_neg (by decide : ¬(rbrace = ','))]
      | cons f1 fs2 =>
        have hQ := skipWs_printFields_multi ind k0 v0 f1 fs2
          ('\n' :: (indentChars ind ++ rbrace :: rest))
        have hcostV : cost v0 ≤ f ∧ costFields (f1 :: fs2) ≤ f := by
          have h1 : costFields ((k0, v0) :: f1 :: fs2) = 1 + cost v0 + costFields (f1 :: fs2) := rfl
          have h2 := costFields_pos (f1 :: fs2)
          have h3 := cost_pos v0
          omega
        have hVal := ihV v0 (ind + 1) (',' :: (printFields ind (f1 :: fs2)
          ++ '\n' :: (indentChars ind ++ rbrace :: rest))) hdecF.1
          (Or.inr ⟨',', _, rfl, Or.inl rfl⟩) hcostV.1
        have hF2 := ihF f1 fs2 ind rest hdecF.2 hcostV.2
        have hPS := parseStr_print k0 (':' :: ' ' :: (printValue (ind + 1) v0
          ++ ',' :: (printFields ind (f1 :: fs2) ++ '\n' :: (indentChars ind ++ rbrace :: rest))))
        have hws : parseValue f (' ' :: (printValue (ind + 1) v0
            ++ ',' :: (printFields ind (f1 :: fs2) ++ '\n' :: (indentChars ind ++ rbrace :: rest))))
            = some (v0, ',' :: (printFields ind (f1 :: fs2)
                ++ '\n' :: (indentChars ind ++ rbrace :: rest))) := by
          rw [parseValue_ws_cons _ _ _ (by decide), hVal]
        have hcomma := skipWs_not ',' (printFields ind (f1 :: fs2)
          ++ '\n' :: (indentChars ind ++ rbrace :: rest)) (by decide)
        have hcol := skipWs_not ':' (' ' :: (printValue (ind + 1) v0
          ++ ',' :: (printFields ind (f1 :: fs2)
            ++ '\n' :: (indentChars ind ++ rbrace :: rest)))) (by decide)
        simp only [parseFields, hQ, if_pos (rfl : dquote = dquote), hPS, hcol, hws, hcomma]
        simp [hF2]

mutual

theorem cost_le_print (v : JValue) (ind : ℕ) : cost v ≤ (printValue ind v).length := by
  cases v with
  | null => simp [cost, printValue]
  | jbool b => cases b <;> simp [cost, printValue]
  | num q =>
    obtain ⟨c, tl, hc, _⟩ := printNum_head q
    have hpv : printValue ind (.num q) = printNum q := rfl
    rw [hpv, hc]
    simp [cost]
  | str s => simp [cost, printValue]
  | arr es =>
    cases es with
    | nil => simp [cost, printValue]
    | cons e es2 =>
      have ih := costItems_le_print (e :: es2) ind
      simp only [cost, printValue, List.length_cons, List.length_append, indentChars,
        List.length_replicate] at *
      omega
  | obj fs =>
    cases fs with
    | nil => simp [cost, printValue]
    | cons f0 fs2 =>
      have ih := costFields_le_print (f0 :: fs2) ind
      simp only [cost, printValue, List.length_cons, List.length_append, indentChars,
        List.length_replicate] at *
      omega

theorem costItems_le_print (es : List JValue) (ind : ℕ) :
    costItems es ≤ (printItems ind es).length + 1 := by
  cases es with
  | nil => simp [costItems, printItems]
  | cons e es2 =>
    cases es2 with
    | nil =>
      have ih := cost_le_print e (ind + 1)
      simp only [costItems, printItems, List.length_cons, List.length_append, indentChars,
        List.length_replicate] at *
      omega
    | cons e2 es3 =>
      have ih1 := cost_le_print e (ind + 1)
      have ih2 := costItems_le_print (e2 :: es3) ind
      simp only [costItems, printItems, List.length_cons, List.length_append, indentChars,
        List.length_replicate] at *
      omega

theorem costFields_le_print (fs : List (String × JValue)) (ind : ℕ) :
    costFields fs ≤ (printFields ind fs).length + 1 := by
  cases fs with
  | nil => simp [costFields, printFields]
  | cons f0 fs2 =>
    obtain ⟨k0, v0⟩ := f0
    cases fs2 with
    | nil =>
      have ih := cost_le_print v0 (ind + 1)
      simp only [costFields, printFields, List.length_cons, List.length_append, indentChars,
        List.length_replicate] at *
      omega
    | cons f1 fs3 =>
      have ih1 := cost_le_print v0 (ind + 1)
      have ih2 := costFields_le_print (f1 :: fs3) ind
      simp only [costFields, printFields, List.length_cons, List.length_append, indentChars,
        List.length_replicate] at *
      omega

end

theorem parseJson_print (v : JValue) (hdec : decimalOK v = true) :
    parseJson (String.mk (printValue 0 v)) = some v := by
  have hdata : (String.mk (printValue 0 v)).data = printValue 0 v := rfl
  have hlen : (String.mk (printValue 0 v)).length = (printValue 0 v).length := rfl
  have hfuel : cost v ≤ (printValue 0 v).length + 1 := by
    have := cost_le_print v 0
    omega
  have hV := (parse_print_all ((printValue 0 v).length + 1)).1 v 0 [] hdec (Or.inl rfl) hfuel
  rw [List.append_nil] at hV
  simp only [parseJson, hdata, hlen, hV]
  simp [skipWs]

theorem decode_encode (r : BenchmarkResult) : decodeResult (encodeResult r) = .ok r := by
  obtain ⟨tid, m, ts⟩ := r
  rfl

theorem mapM_decode (rs : List BenchmarkResult) :
    (rs.map encodeResult).mapM decodeResult = Except.ok rs := by
  induction rs with
  | nil => rfl
  | cons r rs ih =>
    rw [List.map_cons, List.mapM_cons, decode_encode, ih]
    rfl

theorem decimalOK_encode (r : BenchmarkResult) :
    decimalOK (encodeResult r) = decimalOK r.metrics := by
  obtain ⟨tid, m, ts⟩ := r
  simp [encodeResult, decimalOK, decimalOKFields]

theorem decimalOKList_encode (rs : List BenchmarkResult)
    (h : ∀ r ∈ rs, decimalOK r.metrics = true) :
    decimalOKList (rs.map encodeResult) = true := by
  induction rs with
  | nil => rfl
  | cons r rs ih =>
    simp only [List.map_cons, decimalOKList, Bool.and_eq_true]
    exact ⟨by rw [decimalOK_encode]; exact h r (by simp),
      ih (fun x hx => h x (by simp [hx]))⟩

/-- C9: the result store round-trips.  For every sequence of
`BenchmarkResult` records (whose metrics, like every value
`serde_json` can hold, are finite decimals), serializing with
`write_results_json` and reading the produced text back with
`read_results_json` succeeds and yields an equal sequence: same
length, same `target_id` per position, deep-equal `metrics`, and
equal `timestamp` at the serialization format's precision. -/
theorem C9_roundtrip (rs : List BenchmarkResult)
    (h : ∀ r ∈ rs, decimalOK r.metrics = true) :
    read_results_json (write_results_json rs) = Except.ok rs := by
  have hdec : decimalOK (.arr (rs.map encodeResult)) = true := by
    simp only [decimalOK]
    exact decimalOKList_encode rs h
  have hP := parseJson_print (.arr (rs.map encodeResult)) hdec
  simp only [read_results_json, write_results_json, hP]
  exact mapM_decode rs

/-- Witness for C9 at a concrete two-record store: the hypothesis holds
and the round-trip equation evaluates. -/
theorem C9_witness :
    (∀ r ∈ [BenchmarkResult.mk "cache-operations"
        (.obj [("mean_ns", jnat 125), ("throughput", .num (mkRat 3 2)), ("status", .str "simulated")])
        "2026-01-01T00:00:00Z",
      BenchmarkResult.mk "stream-parsing" (.arr [jnat 1, .null, .jbool true, .str "x\ny"])
        "2026-01-01T00:00:01Z"], decimalOK r.metrics = true)
    ∧ read_results_json (write_results_json
        [BenchmarkResult.mk "cache-operations"
          (.obj [("mean_ns", jnat 125), ("throughput", .num (mkRat 3 2)), ("status", .str "simulated")])
          "2026-01-01T00:00:00Z",
        BenchmarkResult.mk "stream-parsing" (.arr [jnat 1, .null, .jbool true, .str "x\ny"])
          "2026-01-01T00:00:01Z"])
      = Except.ok
        [BenchmarkResult.mk "cache-operations"
          (.obj [("mean_ns", jnat 125), ("throughput", .num (mkRat 3 2)), ("status", .str "simulated")])
          "2026-01-01T00:00:00Z",
        BenchmarkResult.mk "stream-parsing" (.arr [jnat 1, .null, .jbool true, .str "x\ny"])
          "2026-01-01T00:00:01Z"] :=
  ⟨by decide, C9_roundtrip _ (by decide)⟩
